import Mathlib

/-!
Shallow embedding of `luminoth/models/fasterrcnn/rcnn_proposal.py`
(`RCNNProposal.__init__` and `RCNNProposal._build`).

Tensors of floats are modelled as lists of rationals (`List ℚ`); 2-D tensors
as lists of rows (`List (List ℚ)`).  TensorFlow ops that can fail at run time
on shape mismatches (`tf.assert_equal` under `control_dependencies`,
`tf.boolean_mask`, `tf.reshape`) are modelled in the `Except` monad with a
single `shapeMismatch` error, matching the spec's error taxonomy.

The helpers `decode`, `clip_boxes` and `change_order` are imported by the
source from `luminoth.utils.bbox_transform_tf`, which is not part of the
sources given here, and `tf.image.non_max_suppression` is a TensorFlow
library routine; those are modelled from the spec (see the doc comments of
`decodeRow`, `clipBox`, `changeOrder` and `nms`).
-/

namespace RcnnProposal

/-- The single runtime error the pipeline can signal: a shape/cardinality
mismatch between co-indexed tensors (the spec's `ShapeMismatch`). -/
inductive TfError where
  | shapeMismatch
deriving DecidableEq, Repr

/-- Box in the natural `(x_min, y_min, x_max, y_max)` convention. -/
structure Box where
  x_min : ℚ
  y_min : ℚ
  x_max : ℚ
  y_max : ℚ
deriving DecidableEq, Repr

/-- Default box used to give `tf.gather` a total model (`List.getD`);
gather indices produced by the pipeline are always in range. -/
def dfltBox : Box := ⟨0, 0, 0, 0⟩

/-- `tf.assert_equal` on the leading dimensions of two tensors, executed via
`tf.control_dependencies`: fails the computation when the values differ. -/
def assertEqual (a b : ℕ) : Except TfError Unit :=
  if a = b then .ok () else .error .shapeMismatch

/-- The pure content of `tf.boolean_mask`: keep the entries of `l` whose
co-indexed mask entry is `true`. -/
def maskList (l : List α) (mask : List Bool) : List α :=
  (l.zip mask).filterMap fun p => if p.2 then some p.1 else none

/-- `tf.boolean_mask t mask`: requires the mask length to match the leading
dimension of the tensor, else the op fails. -/
def booleanMask (l : List α) (mask : List Bool) : Except TfError (List α) :=
  if l.length = mask.length then .ok (maskList l mask) else .error .shapeMismatch

/-- `tf.argmax` over one row: index of the first maximal entry.
`bi`/`bv` track the best index and value seen so far, `i` the next index. -/
def argmaxAux (i bi : ℕ) (bv : ℚ) : List ℚ → ℕ
  | [] => bi
  | x :: xs => if bv < x then argmaxAux (i + 1) i x xs else argmaxAux (i + 1) bi bv xs

/-- `tf.argmax(row)`: first index attaining the maximum (0 on an empty row). -/
def argmaxQ : List ℚ → ℕ
  | [] => 0
  | x :: xs => argmaxAux 1 0 x xs

/-- `tf.reduce_max(row)` (junk value 0 on an empty row). -/
def rowMax : List ℚ → ℚ
  | [] => 0
  | x :: xs => xs.foldl max x

/-- `tf.one_hot(label, depth = n)` cast to `bool` (all `false` when the label
is out of `[0, n)`, as `tf.one_hot` produces a zero row there). -/
def oneHotRow (n : ℕ) (label : ℤ) : List Bool :=
  (List.range n).map fun (j : ℕ) => decide ((j : ℤ) = label)

/-- `tf.reshape(·, [-1, 4])` on a flattened tensor: regroup into rows of 4;
fails when the total size is not divisible by 4. -/
def chunk4 : List ℚ → Except TfError (List (List ℚ))
  | [] => .ok []
  | a :: b :: c :: d :: rest => (chunk4 rest).map fun t => [a, b, c, d] :: t
  | _ => .error .shapeMismatch

/-- Truncated exponential series on ℚ, standing in for the (floating point)
`exp` used by box decoding; exact at 0, the only point the claims evaluate. -/
def qexp (x : ℚ) : ℚ :=
  ((List.range 10).map fun i => x ^ i / (Nat.factorial i : ℚ)).sum

/-- Modelled from the spec: `decode` of `luminoth.utils.bbox_transform_tf`
(not in the given sources).  §4.3: the proposal is the reference box with
center `(cx, cy)` and size `(w, h)`; `cx' = cx + dx·w`, `cy' = cy + dy·h`,
`w' = w·exp(dw)`, `h' = h·exp(dh)`; corners are rebuilt from the new center
and size.  Rows of the wrong arity fail the unstacking. -/
def decodeRow (p d : List ℚ) : Except TfError Box :=
  match p, d with
  | [x1, y1, x2, y2], [dx, dy, dw, dh] =>
    let w := x2 - x1
    let h := y2 - y1
    let cx := x1 + w / 2
    let cy := y1 + h / 2
    let cx' := cx + dx * w
    let cy' := cy + dy * h
    let w' := w * qexp dw
    let h' := h * qexp dh
    .ok ⟨cx' - w' / 2, cy' - h' / 2, cx' + w' / 2, cy' + h' / 2⟩
  | _, _ => .error .shapeMismatch

/-- Modelled from the spec: `decode` applied row-wise to co-indexed proposal
and delta tensors. -/
def decode (ps ds : List (List ℚ)) : Except TfError (List Box) :=
  if ps.length = ds.length then (ps.zip ds).mapM (fun pd => decodeRow pd.1 pd.2)
  else .error .shapeMismatch

/-- Modelled from the spec: `clip_boxes` of `luminoth.utils.bbox_transform_tf`
(not in the given sources).  §4.4: clamp `x` to `[0, image_width - 1]` and
`y` to `[0, image_height - 1]`; `im` is `(height, width)`. -/
def clipBox (im : ℚ × ℚ) (b : Box) : Box :=
  ⟨min (max b.x_min 0) (im.2 - 1), min (max b.y_min 0) (im.1 - 1),
   min (max b.x_max 0) (im.2 - 1), min (max b.y_max 0) (im.1 - 1)⟩

/-- Modelled from the spec: `change_order` of
`luminoth.utils.bbox_transform_tf` (not in the given sources), converting to
TensorFlow's `(y_min, x_min, y_max, x_max)` convention and back (it is an
involution). -/
def changeOrder (b : Box) : Box := ⟨b.y_min, b.x_min, b.y_max, b.x_max⟩

/-- Intersection over union of two boxes (as computed inside
`tf.image.non_max_suppression`); division by a zero union yields 0 in ℚ. -/
def iou (a b : Box) : ℚ :=
  let interW := max 0 (min a.x_max b.x_max - max a.x_min b.x_min)
  let interH := max 0 (min a.y_max b.y_max - max a.y_min b.y_min)
  let inter := interW * interH
  let union := (a.x_max - a.x_min) * (a.y_max - a.y_min) +
    (b.x_max - b.x_min) * (b.y_max - b.y_min) - inter
  inter / union

/-- Ranking used for score ordering: higher score first, ties broken by the
lower original index (the documented `tf.nn.top_k` tie policy). -/
def rankLt (a b : ℕ × ℚ) : Bool :=
  decide (b.2 < a.2) || (decide (a.2 = b.2) && decide (a.1 < b.1))

/-- Insert into a list sorted by the strict order `lt`. -/
def insertBy (lt : α → α → Bool) (x : α) : List α → List α
  | [] => [x]
  | y :: ys => if lt x y then x :: y :: ys else y :: insertBy lt x ys

/-- Insertion sort by the strict order `lt`. -/
def sortBy (lt : α → α → Bool) : List α → List α
  | [] => []
  | x :: xs => insertBy lt x (sortBy lt xs)

/-- Greedy selection loop of `tf.image.non_max_suppression`: walk the
score-sorted candidates `(index, score)`, keep a candidate iff fewer than
`maxOut` boxes are selected so far and its IoU with every selected box is
strictly below `thr` (an overlap at exactly `thr` suppresses). -/
def nmsLoop (boxes : List Box) (thr : ℚ) (maxOut : ℤ) (sel : List (ℕ × ℚ)) :
    List (ℕ × ℚ) → List (ℕ × ℚ)
  | [] => sel
  | c :: cs =>
    if maxOut ≤ (sel.length : ℤ) then sel
    else if sel.all fun s => decide (iou (boxes.getD s.1 dfltBox) (boxes.getD c.1 dfltBox) < thr)
    then nmsLoop boxes thr maxOut (sel ++ [c]) cs
    else nmsLoop boxes thr maxOut sel cs

/-- Modelled from the spec: `tf.image.non_max_suppression` (a TensorFlow
library routine, not in the given sources).  §4.6: sort candidates by
probability descending, greedily emit the best remaining candidate and
suppress every remaining candidate whose IoU with it is `≥ thr`, stopping at
`maxOut` selections; returns the selected indices. -/
def nms (boxes : List Box) (scores : List ℚ) (maxOut : ℤ) (thr : ℚ) : List ℕ :=
  (nmsLoop boxes thr maxOut [] (sortBy rankLt scores.enum)).map (·.1)

/-- The configuration object consumed by `RCNNProposal.__init__`.
`min_prob_threshold` is optional: the constructor replaces a missing (or
falsy) value by `0.0`. -/
structure RCNNConfig where
  class_max_detections : ℤ
  class_nms_threshold : ℚ
  total_max_detections : ℤ
  min_prob_threshold : Option ℚ
deriving DecidableEq, Repr

/-- The module state after `RCNNProposal.__init__`: the stored fields. -/
structure RCNNProposal where
  num_classes : ℕ
  class_max_detections : ℤ
  class_nms_threshold : ℚ
  total_max_detections : ℤ
  min_prob_threshold : ℚ
deriving DecidableEq, Repr

/-- `RCNNProposal.__init__(num_classes, config)` (source lines 26-42): the
configuration values are stored as-is; no validation is performed.
`config.min_prob_threshold or 0.0` maps a missing value to `0.0`. -/
def RCNNProposal.init (num_classes : ℕ) (config : RCNNConfig) : RCNNProposal :=
  { num_classes := num_classes
    class_max_detections := config.class_max_detections
    class_nms_threshold := config.class_nms_threshold
    total_max_detections := config.total_max_detections
    min_prob_threshold := config.min_prob_threshold.getD 0 }

/-- The dictionary returned by `RCNNProposal._build` (source lines 195-203). -/
structure BuildOutput where
  raw_objects : List Box
  objects : List Box
  proposal_label : List ℤ
  proposal_label_prob : List ℚ
  selected_boxes : List (List Box)
  selected_probs : List (List ℚ)
  selected_labels : List (List ℤ)
deriving DecidableEq, Repr

/-- Source lines 73-101: per-row label (`argmax - 1`) and probability
(`reduce_max`), the non-background and minimum-probability filters, the
`tf.assert_equal` on the proposal/delta leading dimensions, and the four
`tf.boolean_mask` applications. -/
def labelFilterStage (minProb : ℚ) (proposals bbox_pred cls_prob : List (List ℚ)) :
    Except TfError (List (List ℚ) × List ℤ × List ℚ × List (List ℚ)) := do
  let proposal_label := cls_prob.map fun r => (argmaxQ r : ℤ) - 1
  let proposal_label_prob := cls_prob.map rowMax
  let non_background_filter := proposal_label.map fun l => decide (0 ≤ l)
  let min_prob_filter := proposal_label_prob.map fun p => decide (minProb ≤ p)
  let proposal_filter := List.zipWith (· && ·) non_background_filter min_prob_filter
  let _ ← assertEqual proposals.length bbox_pred.length
  let proposals' ← booleanMask proposals proposal_filter
  let proposal_label' ← booleanMask proposal_label proposal_filter
  let proposal_label_prob' ← booleanMask proposal_label_prob proposal_filter
  let bbox_pred' ← booleanMask bbox_pred proposal_filter
  pure (proposals', proposal_label', proposal_label_prob', bbox_pred')

/-- Source lines 103-120: one-hot encode the surviving labels, flatten, view
the surviving delta rows as `(count · num_classes) × 4`, assert the two
leading dimensions agree, and gather each row's class delta by boolean mask. -/
def gatherDeltasStage (n : ℕ) (labels : List ℤ) (bbox_pred : List (List ℚ)) :
    Except TfError (List (List ℚ)) := do
  let label_one_hot_flatten := (labels.map (oneHotRow n)).flatten
  let bbox_pred_flatten ← chunk4 bbox_pred.flatten
  let _ ← assertEqual bbox_pred_flatten.length label_one_hot_flatten.length
  booleanMask bbox_pred_flatten label_one_hot_flatten

/-- Source lines 127-139: the validity filter.  The mask keeps a clipped box
iff `max(x_max - x_min, 0) · max(y_max - y_min, 0) ≥ 0`; the mask is applied
to the boxes, labels and probabilities. -/
def validityFilterStage (objects : List Box) (labels : List ℤ) (probs : List ℚ) :
    Except TfError (List Box × List ℤ × List ℚ) := do
  let object_filter := objects.map fun b =>
    decide ((0 : ℚ) ≤ max (b.x_max - b.x_min) 0 * max (b.y_max - b.y_min) 0)
  let objects' ← booleanMask objects object_filter
  let labels' ← booleanMask labels object_filter
  let probs' ← booleanMask probs object_filter
  pure (objects', labels', probs')

/-- One iteration of the per-class loop (source lines 150-175): mask the
boxes/probabilities of class `c`, run NMS, gather the selections, and tile
the class id. -/
def classPass (maxDet : ℤ) (thr : ℚ) (objects_tf : List Box) (labels : List ℤ)
    (probs : List ℚ) (c : ℕ) : Except TfError (List Box × List ℚ × List ℤ) := do
  let class_filter := labels.map fun l => decide (l = (c : ℤ))
  let class_objects_tf ← booleanMask objects_tf class_filter
  let class_prob ← booleanMask probs class_filter
  let class_selected_idx := nms class_objects_tf class_prob maxDet thr
  pure (class_selected_idx.map (class_objects_tf.getD · dfltBox),
    class_selected_idx.map (class_prob.getD · 0),
    List.replicate class_selected_idx.length (c : ℤ))

/-- Source lines 146-175: run `classPass` for every `class_id` in
`range num_classes`, accumulating the per-class selections. -/
def classNMSStage (maxDet : ℤ) (thr : ℚ) (objects_tf : List Box) (labels : List ℤ)
    (probs : List ℚ) : List ℕ → Except TfError (List (List Box × List ℚ × List ℤ))
  | [] => .ok []
  | c :: cs => do
    let r ← classPass maxDet thr objects_tf labels probs c
    let rest ← classNMSStage maxDet thr objects_tf labels probs cs
    pure (r :: rest)

/-- Source lines 185-193: `k = min(total_max_detections, count)`,
`tf.nn.top_k` over the probabilities (descending, ties to the lower index),
and gathers of the boxes and labels by the top-k indices. -/
def topKStage (totalMax : ℤ) (objects : List Box) (labels : List ℤ) (probs : List ℚ) :
    List Box × List ℤ × List ℚ :=
  let k : ℤ := min totalMax (probs.length : ℤ)
  let ranked := (sortBy rankLt probs.enum).take k.toNat
  (ranked.map fun p => objects.getD p.1 dfltBox,
   ranked.map fun p => labels.getD p.1 0,
   ranked.map (·.2))

/-- `RCNNProposal._build(proposals, bbox_pred, cls_prob, im_shape)` (source
lines 44-203).  Note the dimension check of line 70: the source wraps
`tf.equal(tf.shape(proposals)[-1], 5)` — a pure comparison producing a
boolean tensor, not an assertion op — in `tf.control_dependencies`, so the
value is computed and discarded and can never fail; the batch id column is
then dropped unconditionally. -/
def RCNNProposal.build (m : RCNNProposal) (proposals bbox_pred cls_prob : List (List ℚ))
    (im_shape : ℚ × ℚ) : Except TfError BuildOutput := do
  let _ := proposals.all fun r => r.length == 5
  let proposals := proposals.map (List.drop 1)
  let (proposals', proposal_label, proposal_label_prob, bbox_pred') ←
    labelFilterStage m.min_prob_threshold proposals bbox_pred cls_prob
  let bbox_gathered ← gatherDeltasStage m.num_classes proposal_label bbox_pred'
  let raw_objects ← decode proposals' bbox_gathered
  let clipped_objects := raw_objects.map (clipBox im_shape)
  let (objects, proposal_label2, proposal_label_prob2) ←
    validityFilterStage clipped_objects proposal_label proposal_label_prob
  let objects_tf := objects.map changeOrder
  let results ← classNMSStage m.class_max_detections m.class_nms_threshold objects_tf
    proposal_label2 proposal_label_prob2 (List.range m.num_classes)
  let selected_boxes := results.map (·.1)
  let selected_probs := results.map (·.2.1)
  let selected_labels := results.map (·.2.2)
  let objects2 := selected_boxes.flatten.map changeOrder
  let proposal_label3 := selected_labels.flatten
  let proposal_label_prob3 := selected_probs.flatten
  let (top_objects, top_labels, top_probs) :=
    topKStage m.total_max_detections objects2 proposal_label3 proposal_label_prob3
  pure { raw_objects := raw_objects
         objects := top_objects
         proposal_label := top_labels
         proposal_label_prob := top_probs
         selected_boxes := selected_boxes
         selected_probs := selected_probs
         selected_labels := selected_labels }

/-- The composite row-survival predicate of source lines 75-87: the row's
label (`argmax - 1`) is non-negative and its probability (`reduce_max`) is at
least the threshold. -/
def keepRow (minProb : ℚ) (r : List ℚ) : Bool :=
  decide (0 ≤ (argmaxQ r : ℤ) - 1) && decide (minProb ≤ rowMax r)

/-- Pairing of three co-indexed tensors, used to reason about the filtering
and gathering stages that must keep them in sync. -/
def zip3 (a : List α) (b : List β) (c : List γ) : List (α × β × γ) :=
  a.zip (b.zip c)

/-! ### The spec's concrete scenario (§8) and further concrete inputs -/

/-- §8 scenario: 3 proposals with batch tag 0. -/
def scenarioProposals : List (List ℚ) :=
  [[0, 0, 0, 10, 10], [0, 1, 1, 11, 11], [0, 50, 50, 60, 60]]

/-- §8 scenario: all deltas zero (2 foreground classes, 8 values per row). -/
def scenarioDeltas : List (List ℚ) :=
  [[0, 0, 0, 0, 0, 0, 0, 0], [0, 0, 0, 0, 0, 0, 0, 0], [0, 0, 0, 0, 0, 0, 0, 0]]

/-- §8 scenario: class probabilities (background first). -/
def scenarioClsProb : List (List ℚ) :=
  [[1/10, 4/5, 1/10], [1/10, 3/4, 3/20], [1/20, 1/20, 9/10]]

/-- §8 scenario module: 2 classes, `class_max_detections = 10`,
`class_nms_threshold = 0.3`, `total_max_detections = 5`,
`min_prob_threshold = 0.5`. -/
def scenarioModule : RCNNProposal :=
  RCNNProposal.init 2 ⟨10, 3/10, 5, some (1/2)⟩

/-- A proposals tensor whose inner dimension is 6, not 5. -/
def sixWideProposals : List (List ℚ) := [[0, 0, 0, 10, 10, 20]]

/-- A probability row whose maximum sits at the background index. -/
def backgroundClsProb : List (List ℚ) := [[9/10, 1/20, 1/20]]

/-- One all-zero delta row for 2 classes. -/
def oneZeroDeltaRow : List (List ℚ) := [[0, 0, 0, 0, 0, 0, 0, 0]]

/-- The output record assembled by `_build` from the decoded boxes and the
per-class NMS results (source lines 177-203): concatenate the per-class
selections, convert back from the TensorFlow box convention, and keep the
global top-k by probability. -/
def assembleOutput (totalMax : ℤ) (raw : List Box)
    (results : List (List Box × List ℚ × List ℤ)) : BuildOutput :=
  let selected_boxes := results.map (·.1)
  let selected_probs := results.map (·.2.1)
  let selected_labels := results.map (·.2.2)
  let t := topKStage totalMax (selected_boxes.flatten.map changeOrder)
    selected_labels.flatten selected_probs.flatten
  { raw_objects := raw, objects := t.1, proposal_label := t.2.1, proposal_label_prob := t.2.2,
    selected_boxes := selected_boxes, selected_probs := selected_probs,
    selected_labels := selected_labels }

/-! ### Re-encoding of a pipeline output as pipeline input (for idempotence) -/

/-- The pipeline's own output boxes re-supplied as proposals, each tagged
with batch id 0. -/
def reProposals (out : BuildOutput) : List (List ℚ) :=
  out.objects.map fun b => [0, b.x_min, b.y_min, b.x_max, b.y_max]

/-- All-zero regression deltas for each re-supplied proposal. -/
def reDeltas (n : ℕ) (out : BuildOutput) : List (List ℚ) :=
  out.objects.map fun _ => List.replicate (4 * n) 0

/-- The pipeline's own labels and probabilities re-supplied as class
probability rows: the probability at index `label + 1`, zero elsewhere. -/
def reClsProb (n : ℕ) (out : BuildOutput) : List (List ℚ) :=
  (out.proposal_label.zip out.proposal_label_prob).map fun lp =>
    (List.range (n + 1)).map fun (j : ℕ) => if (j : ℤ) = lp.1 + 1 then lp.2 else 0

/-- The tuple `classPass` returns when both shape checks pass (the success
branch of source lines 141-173), as a standalone function of the class id. -/
def classPassValue (maxDet : ℤ) (thr : ℚ) (objects_tf : List Box) (labels : List ℤ)
    (probs : List ℚ) (c : ℕ) : List Box × List ℚ × List ℤ :=
  let cf := labels.map fun l => decide (l = (c : ℤ))
  let cb := maskList objects_tf cf
  let cp := maskList probs cf
  let idx := nms cb cp maxDet thr
  (idx.map (cb.getD · dfltBox), idx.map (cp.getD · 0), List.replicate idx.length (c : ℤ))

/-- The full output record the pipeline produces on the section 8 scenario
(instantiates the idempotence theorem at a concrete run). -/
def scenarioOut : BuildOutput :=
  { raw_objects := [⟨0, 0, 10, 10⟩, ⟨1, 1, 11, 11⟩, ⟨50, 50, 60, 60⟩],
    objects := [⟨50, 50, 60, 60⟩, ⟨0, 0, 10, 10⟩],
    proposal_label := [1, 0],
    proposal_label_prob := [9/10, 4/5],
    selected_boxes := [[⟨0, 0, 10, 10⟩], [⟨50, 50, 60, 60⟩]],
    selected_probs := [[4/5], [9/10]],
    selected_labels := [[0], [1]] }

end RcnnProposal

deriving instance DecidableEq for Except

namespace RcnnProposal

/-! ### Inversion and characterization lemmas for the tensor-op models -/

theorem except_bind_ok {α β : Type} {x : Except TfError α} {f : α → Except TfError β} {b : β}
    (h : (x >>= f) = .ok b) : ∃ a, x = .ok a ∧ f a = .ok b := by
  cases x with
  | ok a => exact ⟨a, rfl, h⟩
  | error e => exact absurd h (by simp [Bind.bind, Except.bind])

theorem except_bind_err {α β : Type} {x : Except TfError α} {f : α → Except TfError β} {e : TfError}
    (h : x = .error e) : (x >>= f) = .error e := by
  subst h; rfl

theorem assertEqual_ok {a b : ℕ} (h : a = b) : assertEqual a b = .ok () := by
  simp [assertEqual, h]

theorem assertEqual_err {a b : ℕ} (h : a ≠ b) : assertEqual a b = .error .shapeMismatch := by
  simp [assertEqual, h]

theorem assertEqual_ok_inv {a b : ℕ} {u : Unit} (h : assertEqual a b = .ok u) : a = b := by
  by_contra hne
  rw [assertEqual_err hne] at h
  exact absurd h (by simp)

@[simp] theorem maskList_nil (m : List Bool) : maskList ([] : List α) m = [] := by
  simp [maskList]

@[simp] theorem maskList_nil_right (l : List α) : maskList l [] = [] := by
  simp [maskList]

theorem maskList_cons (x : α) (l : List α) (b : Bool) (m : List Bool) :
    maskList (x :: l) (b :: m) = if b then x :: maskList l m else maskList l m := by
  cases b <;> simp [maskList, List.filterMap_cons]

theorem booleanMask_ok (l : List α) (m : List Bool) (h : l.length = m.length) :
    booleanMask l m = .ok (maskList l m) := by
  simp [booleanMask, h]

theorem booleanMask_err (l : List α) (m : List Bool) (h : l.length ≠ m.length) :
    booleanMask l m = .error .shapeMismatch := by
  simp [booleanMask, h]

theorem booleanMask_ok_inv {l : List α} {m : List Bool} {r : List α}
    (h : booleanMask l m = .ok r) : l.length = m.length ∧ r = maskList l m := by
  by_cases hl : l.length = m.length
  · rw [booleanMask_ok l m hl] at h
    exact ⟨hl, (Except.ok.injEq _ _ ▸ h).symm⟩
  · rw [booleanMask_err l m hl] at h
    exact absurd h (by simp)

theorem maskList_true (l : List α) (m : List Bool) (hl : l.length = m.length)
    (h : ∀ b ∈ m, b = true) : maskList l m = l := by
  induction l generalizing m with
  | nil => simp
  | cons x xs ih =>
    cases m with
    | nil => simp at hl
    | cons b bs =>
      have hb : b = true := h b (by simp)
      rw [maskList_cons, if_pos hb, ih bs (by simpa using hl) fun c hc => h c (by simp [hc])]

theorem maskList_map_pred (f : α → β) (p : α → Bool) (l : List α) :
    maskList (l.map f) (l.map p) = (l.filter p).map f := by
  induction l with
  | nil => simp
  | cons x xs ih =>
    rw [List.map_cons, List.map_cons, maskList_cons, List.filter_cons]
    by_cases hp : p x = true
    · rw [if_pos hp, if_pos hp, List.map_cons, ih]
    · rw [if_neg hp, if_neg (by simpa using hp), ih]

theorem maskList_self_pred (p : α → Bool) (l : List α) :
    maskList l (l.map p) = l.filter p := by
  have := maskList_map_pred id p l
  simpa using this

theorem maskList_zip_pred (l : List α) (l₂ : List β) (p : β → Bool)
    (h : l.length = l₂.length) :
    maskList l (l₂.map p) = ((l.zip l₂).filter fun ab => p ab.2).map (·.1) := by
  induction l generalizing l₂ with
  | nil => simp
  | cons x xs ih =>
    cases l₂ with
    | nil => simp at h
    | cons y ys =>
      rw [List.map_cons, maskList_cons, List.zip_cons_cons, List.filter_cons]
      by_cases hp : p y = true
      · rw [if_pos hp, if_pos (by simpa using hp), List.map_cons, ih ys (by simpa using h)]
      · rw [if_neg hp, if_neg (by simpa using hp), ih ys (by simpa using h)]

theorem maskList_mem {l : List α} {m : List Bool} {x : α} (h : x ∈ maskList l m) : x ∈ l := by
  induction l generalizing m with
  | nil => simp at h
  | cons y ys ih =>
    cases m with
    | nil => simp [maskList] at h
    | cons b bs =>
      rw [maskList_cons] at h
      by_cases hb : b = true
      · rw [if_pos hb] at h
        rcases List.mem_cons.mp h with h' | h'
        · exact h' ▸ List.mem_cons_self _ _
        · exact List.mem_cons_of_mem _ (ih h')
      · rw [if_neg hb] at h
        exact List.mem_cons_of_mem _ (ih h)

theorem maskList_length_pair {a : List α} {b : List β} {m : List Bool}
    (ha : a.length = m.length) (hb : b.length = m.length) :
    (maskList a m).length = (maskList b m).length := by
  induction m generalizing a b with
  | nil => simp
  | cons c cs ih =>
    cases a with
    | nil => simp at ha
    | cons x xs =>
      cases b with
      | nil => simp at hb
      | cons y ys =>
        rw [maskList_cons, maskList_cons]
        have := ih (a := xs) (b := ys) (by simpa using ha) (by simpa using hb)
        cases c <;> simp [this]

theorem zipWith_map_same (f : β → γ → δ) (g : α → β) (h : α → γ) (l : List α) :
    List.zipWith f (l.map g) (l.map h) = l.map fun x => f (g x) (h x) := by
  induction l with
  | nil => rfl
  | cons x xs ih => simp [ih]

@[simp] theorem except_ok_bind (a : α) (f : α → Except TfError β) :
    (Except.ok a >>= f : Except TfError β) = f a := rfl

@[simp] theorem except_err_bind (e : TfError) (f : α → Except TfError β) :
    (Except.error e >>= f : Except TfError β) = Except.error e := rfl

/-! ### Normal forms of the pipeline stages -/

theorem labelFilterStage_eq (minProb : ℚ) (prop bbox cls : List (List ℚ)) :
    labelFilterStage minProb prop bbox cls =
      if prop.length = bbox.length then
        if prop.length = cls.length then
          .ok (maskList prop (cls.map (keepRow minProb)),
               maskList (cls.map fun r => (argmaxQ r : ℤ) - 1) (cls.map (keepRow minProb)),
               maskList (cls.map rowMax) (cls.map (keepRow minProb)),
               maskList bbox (cls.map (keepRow minProb)))
        else .error .shapeMismatch
      else .error .shapeMismatch := by
  have hf : List.zipWith (· && ·)
      ((cls.map fun r => (argmaxQ r : ℤ) - 1).map fun l => decide (0 ≤ l))
      ((cls.map rowMax).map fun p => decide (minProb ≤ p)) = cls.map (keepRow minProb) := by
    rw [List.map_map, List.map_map, zipWith_map_same]; rfl
  by_cases h1 : prop.length = bbox.length
  · by_cases h2 : prop.length = cls.length
    · have hb : bbox.length = cls.length := by rw [← h1]; exact h2
      rw [if_pos h1, if_pos h2]
      unfold labelFilterStage
      simp only [hf, assertEqual_ok h1, except_ok_bind,
        booleanMask_ok prop (cls.map (keepRow minProb)) (by simpa using h2),
        booleanMask_ok (cls.map fun r => ((argmaxQ r : ℤ) - 1)) (cls.map (keepRow minProb))
          (by simp),
        booleanMask_ok (cls.map rowMax) (cls.map (keepRow minProb)) (by simp),
        booleanMask_ok bbox (cls.map (keepRow minProb)) (by simpa using hb)]
      rfl
    · rw [if_pos h1, if_neg h2]
      unfold labelFilterStage
      simp only [hf, assertEqual_ok h1, except_ok_bind,
        booleanMask_err prop (cls.map (keepRow minProb)) (by simpa using h2)]
      rfl
  · rw [if_neg h1]
    unfold labelFilterStage
    simp only [hf, assertEqual_err h1]
    rfl


theorem valid_pred_true (b : Box) :
    decide ((0 : ℚ) ≤ max (b.x_max - b.x_min) 0 * max (b.y_max - b.y_min) 0) = true :=
  decide_eq_true (mul_nonneg (le_max_right _ _) (le_max_right _ _))

theorem validityFilterStage_eq (objects : List Box) (labels : List ℤ) (probs : List ℚ) :
    validityFilterStage objects labels probs =
      if labels.length = objects.length then
        if probs.length = objects.length then .ok (objects, labels, probs)
        else .error .shapeMismatch
      else .error .shapeMismatch := by
  unfold validityFilterStage
  dsimp only
  set msk := objects.map fun b =>
    decide ((0 : ℚ) ≤ max (b.x_max - b.x_min) 0 * max (b.y_max - b.y_min) 0) with hmsk
  have hmem : ∀ b ∈ msk, b = true := by
    intro b hb
    rcases List.mem_map.mp hb with ⟨x, _, hx⟩
    rw [← hx, valid_pred_true]
  have hlen : msk.length = objects.length := by simp [hmsk]
  have hml : maskList objects msk = objects := maskList_true _ _ hlen.symm hmem
  rw [booleanMask_ok objects msk hlen.symm, except_ok_bind, hml]
  by_cases h1 : labels.length = objects.length
  · rw [booleanMask_ok labels msk (by rw [hlen]; exact h1), except_ok_bind,
      maskList_true labels msk (by rw [hlen]; exact h1) hmem]
    by_cases h2 : probs.length = objects.length
    · rw [booleanMask_ok probs msk (by rw [hlen]; exact h2), except_ok_bind,
        maskList_true probs msk (by rw [hlen]; exact h2) hmem, if_pos h1, if_pos h2]
      rfl
    · rw [booleanMask_err probs msk (by rw [hlen]; exact h2), except_err_bind,
        if_pos h1, if_neg h2]
  · rw [booleanMask_err labels msk (by rw [hlen]; exact h1), except_err_bind, if_neg h1]

theorem gatherDeltasStage_eq (n : ℕ) (labels : List ℤ) (bbox : List (List ℚ)) :
    gatherDeltasStage n labels bbox =
      (chunk4 bbox.flatten).bind fun flat =>
        if flat.length = ((labels.map (oneHotRow n)).flatten).length
        then .ok (maskList flat ((labels.map (oneHotRow n)).flatten))
        else .error .shapeMismatch := by
  unfold gatherDeltasStage
  cases hc : chunk4 bbox.flatten with
  | error e => rfl
  | ok flat =>
    show (Except.ok flat >>= fun fl => _ : Except TfError _) = _
    rw [except_ok_bind, Except.bind]
    by_cases h : flat.length = ((labels.map (oneHotRow n)).flatten).length
    · rw [if_pos h, assertEqual_ok h, except_ok_bind, booleanMask_ok flat _ h]
    · rw [if_neg h, assertEqual_err h, except_err_bind]

theorem classPass_eq (maxDet : ℤ) (thr : ℚ) (objects_tf : List Box) (labels : List ℤ)
    (probs : List ℚ) (c : ℕ) :
    classPass maxDet thr objects_tf labels probs c =
      (let cf := labels.map fun l => decide (l = (c : ℤ))
       let cb := maskList objects_tf cf
       let cp := maskList probs cf
       let idx := nms cb cp maxDet thr
       if objects_tf.length = labels.length then
         if probs.length = labels.length then
           .ok (idx.map (cb.getD · dfltBox), idx.map (cp.getD · 0),
             List.replicate idx.length (c : ℤ))
         else .error .shapeMismatch
       else .error .shapeMismatch) := by
  unfold classPass
  dsimp only
  set cf := labels.map fun l => decide (l = (c : ℤ)) with hcf
  have hlcf : cf.length = labels.length := by simp [hcf]
  by_cases h1 : objects_tf.length = labels.length
  · rw [booleanMask_ok objects_tf cf (by rw [hlcf]; exact h1), except_ok_bind]
    by_cases h2 : probs.length = labels.length
    · rw [booleanMask_ok probs cf (by rw [hlcf]; exact h2), except_ok_bind,
        if_pos h1, if_pos h2]
      rfl
    · rw [booleanMask_err probs cf (by rw [hlcf]; exact h2), except_err_bind,
        if_pos h1, if_neg h2]
  · rw [booleanMask_err objects_tf cf (by rw [hlcf]; exact h1), except_err_bind, if_neg h1]

theorem classNMSStage_ok_iff {maxDet : ℤ} {thr : ℚ} {objects_tf : List Box} {labels : List ℤ}
    {probs : List ℚ} {cs : List ℕ} {rs : List (List Box × List ℚ × List ℤ)} :
    classNMSStage maxDet thr objects_tf labels probs cs = .ok rs ↔
      List.Forall₂ (fun c r => classPass maxDet thr objects_tf labels probs c = .ok r) cs rs := by
  induction cs generalizing rs with
  | nil =>
    constructor
    · intro h
      have : rs = [] := by simpa [classNMSStage] using h.symm
      subst this
      exact .nil
    · intro h
      cases h
      rfl
  | cons c cs ih =>
    constructor
    · intro h
      unfold classNMSStage at h
      rcases except_bind_ok h with ⟨r, hr, h⟩
      rcases except_bind_ok h with ⟨rest, hrest, h⟩
      have : r :: rest = rs := by simpa [pure, Except.pure] using h
      subst this
      exact .cons hr (ih.mp hrest)
    · intro h
      rcases h with _ | ⟨hr, hrest⟩
      unfold classNMSStage
      rw [hr, except_ok_bind, ih.mpr hrest, except_ok_bind]
      rfl

theorem build_eq_of_stages {m : RCNNProposal} {prop bbox cls : List (List ℚ)} {im : ℚ × ℚ}
    {p1 b1 : List (List ℚ)} {l1 : List ℤ} {pr1 : List ℚ} {deltas : List (List ℚ)}
    {raw o2 : List Box} {l2 : List ℤ} {pr2 : List ℚ}
    {results : List (List Box × List ℚ × List ℤ)}
    (h1 : labelFilterStage m.min_prob_threshold (prop.map (List.drop 1)) bbox cls =
      .ok (p1, l1, pr1, b1))
    (h2 : gatherDeltasStage m.num_classes l1 b1 = .ok deltas)
    (h3 : decode p1 deltas = .ok raw)
    (h4 : validityFilterStage (raw.map (clipBox im)) l1 pr1 = .ok (o2, l2, pr2))
    (h5 : classNMSStage m.class_max_detections m.class_nms_threshold (o2.map changeOrder) l2 pr2
      (List.range m.num_classes) = .ok results) :
    m.build prop bbox cls im = .ok (assembleOutput m.total_max_detections raw results) := by
  unfold RCNNProposal.build
  simp only [h1, h2, h3, h4, h5, except_ok_bind]
  rfl

theorem build_ok_inv {m : RCNNProposal} {prop bbox cls : List (List ℚ)} {im : ℚ × ℚ}
    {out : BuildOutput} (h : m.build prop bbox cls im = .ok out) :
    ∃ p1 l1 pr1 b1 deltas raw o2 l2 pr2 results,
      labelFilterStage m.min_prob_threshold (prop.map (List.drop 1)) bbox cls =
        .ok (p1, l1, pr1, b1) ∧
      gatherDeltasStage m.num_classes l1 b1 = .ok deltas ∧
      decode p1 deltas = .ok raw ∧
      validityFilterStage (raw.map (clipBox im)) l1 pr1 = .ok (o2, l2, pr2) ∧
      classNMSStage m.class_max_detections m.class_nms_threshold (o2.map changeOrder) l2 pr2
        (List.range m.num_classes) = .ok results ∧
      out = assembleOutput m.total_max_detections raw results := by
  unfold RCNNProposal.build at h
  rcases except_bind_ok h with ⟨q1, hq1, h⟩
  obtain ⟨p1, l1, pr1, b1⟩ := q1
  dsimp only at h
  rcases except_bind_ok h with ⟨deltas, hd, h⟩
  rcases except_bind_ok h with ⟨raw, hraw, h⟩
  rcases except_bind_ok h with ⟨q2, hq2, h⟩
  obtain ⟨o2, l2, pr2⟩ := q2
  dsimp only at h
  rcases except_bind_ok h with ⟨results, hres, h⟩
  refine ⟨p1, l1, pr1, b1, deltas, raw, o2, l2, pr2, results, hq1, hd, hraw, hq2, hres, ?_⟩
  have : Except.ok (ε := TfError) (assembleOutput m.total_max_detections raw results) =
      .ok out := h
  exact (Except.ok.injEq _ _ ▸ this).symm

/-! ### Claim C1: the spec's concrete scenario -/

section DecideOnRationals

attribute [local semireducible] Rat.add Rat.mul Rat.inv Rat.sub Rat.ofScientific

/-- Claim C1: on the §8 scenario (image 100×100, proposals P0=(0,0,10,10),
P1=(1,1,11,11), P2=(50,50,60,60) with batch tag 0, 2 foreground classes,
the given class probabilities, zero deltas, `min_prob_threshold = 0.5`,
`class_nms_threshold = 0.3`, `class_max_detections = 10`,
`total_max_detections = 5`), the pipeline returns exactly
`objects = [(50,50,60,60), (0,0,10,10)]`, `labels = [1, 0]`,
`probabilities = [0.9, 0.8]`, in that order. -/
theorem c1_concrete_scenario :
    (scenarioModule.build scenarioProposals scenarioDeltas scenarioClsProb (100, 100)).map
      (fun o => (o.objects, o.proposal_label, o.proposal_label_prob)) =
    .ok ([⟨50, 50, 60, 60⟩, ⟨0, 0, 10, 10⟩], [1, 0], [9/10, 4/5]) := by
  decide

/-- Claim C7 (evaluation at the failing input): a proposals tensor of inner
dimension 6 does not fail the call.  The source wraps `tf.equal(shape[-1], 5)`
— a pure comparison, not an assertion — in `tf.control_dependencies`, so the
check is a no-op; with an all-background probability row the pipeline runs to
completion and returns an (empty) ok output instead of a `ShapeMismatch`. -/
theorem c7_inner_dim_not_checked :
    (sixWideProposals.all fun r => r.length == 5) = false ∧
    (RCNNProposal.init 2 ⟨10, 3/10, 5, some (1/2)⟩).build sixWideProposals
      oneZeroDeltaRow backgroundClsProb (100, 100) =
      .ok ⟨[], [], [], [], [[], []], [[], []], [[], []]⟩ := by
  constructor
  · decide
  · decide

/-- Claim C8 (counterexample): an invalid configuration
(`class_nms_threshold = 2 ∉ [0,1]`) is not rejected: `__init__` stores it
unvalidated and the pipeline runs to completion on the §8 scenario, returning
three detections (the threshold 2 suppresses nothing). -/
theorem c8_counterexample_no_rejection :
    ((RCNNProposal.init 2 ⟨10, 2, 5, some (1/2)⟩).build scenarioProposals scenarioDeltas
        scenarioClsProb (100, 100)).map
      (fun o => (o.objects, o.proposal_label, o.proposal_label_prob)) =
    .ok ([⟨50, 50, 60, 60⟩, ⟨0, 0, 10, 10⟩, ⟨1, 1, 11, 11⟩], [1, 0, 0],
      [9/10, 4/5, 3/4]) := by
  decide

/-- Claim C8 (amended): no configuration validation exists.  For every
`class_nms_threshold` (in particular values outside `[0,1]`) and every
`class_max_detections` and `total_max_detections` (in particular non-positive
ones), the constructor accepts the configuration and the pipeline produces an
ok output on the §8 scenario — no `InvalidConfiguration` error is ever
raised. -/
theorem c8_no_config_validation (t : ℚ) (cmax tmax : ℤ) :
    ∃ o, (RCNNProposal.init 2 ⟨cmax, t, tmax, some (1/2)⟩).build scenarioProposals
      scenarioDeltas scenarioClsProb (100, 100) = .ok o :=
  ⟨_, rfl⟩

end DecideOnRationals

theorem argmaxAux_le (i bi : ℕ) (bv : ℚ) (xs : List ℚ) (h : ∀ x ∈ xs, x ≤ bv) :
    argmaxAux i bi bv xs = bi := by
  induction xs generalizing i with
  | nil => rfl
  | cons x xs ih =>
    unfold argmaxAux
    rw [if_neg (not_lt.mpr (h x (List.mem_cons_self _ _)))]
    exact ih _ fun y hy => h y (List.mem_cons_of_mem _ hy)

/-- Claim C2: for every input row, the assigned label is `argmax(row) - 1` and
the assigned probability is `max(row)`; a row (with its co-indexed proposal
and delta block) survives the label-assignment stage iff its label is `≥ 0`
and its probability is `≥ min_prob_threshold`. -/
theorem c2_label_assignment (minProb : ℚ) (proposals bbox_pred cls_prob : List (List ℚ))
    (out : List (List ℚ) × List ℤ × List ℚ × List (List ℚ))
    (h : labelFilterStage minProb proposals bbox_pred cls_prob = .ok out) :
    out.1 = ((proposals.zip cls_prob).filter fun pc => keepRow minProb pc.2).map (·.1) ∧
    out.2.1 = (cls_prob.filter (keepRow minProb)).map (fun r => (argmaxQ r : ℤ) - 1) ∧
    out.2.2.1 = (cls_prob.filter (keepRow minProb)).map rowMax ∧
    out.2.2.2 = ((bbox_pred.zip cls_prob).filter fun pc => keepRow minProb pc.2).map (·.1) ∧
    ∀ r : List ℚ, keepRow minProb r = true ↔ (0 ≤ (argmaxQ r : ℤ) - 1 ∧ minProb ≤ rowMax r) := by
  rw [labelFilterStage_eq] at h
  by_cases h1 : proposals.length = bbox_pred.length
  · by_cases h2 : proposals.length = cls_prob.length
    · rw [if_pos h1, if_pos h2] at h
      have hout := (Except.ok.injEq _ _ ▸ h).symm
      subst hout
      refine ⟨?_, ?_, ?_, ?_, ?_⟩
      · exact maskList_zip_pred proposals cls_prob (keepRow minProb) h2
      · exact maskList_map_pred _ _ _
      · exact maskList_map_pred _ _ _
      · exact maskList_zip_pred bbox_pred cls_prob (keepRow minProb) (h1 ▸ h2)
      · intro r
        simp [keepRow]
    · rw [if_pos h1, if_neg h2] at h
      exact absurd h (by simp)
  · rw [if_neg h1] at h
    exact absurd h (by simp)

/-- Claim C5: the validity filter keeps a clipped box iff
`max(x_max - x_min, 0) · max(y_max - y_min, 0) ≥ 0`, and since this predicate
is a product of non-negative factors it always holds: every row entering the
stage leaves it, in order. -/
theorem c5_validity_filter_noop (objects : List Box) (labels : List ℤ) (probs : List ℚ)
    (h1 : labels.length = objects.length) (h2 : probs.length = objects.length) :
    validityFilterStage objects labels probs = .ok (objects, labels, probs) ∧
    ∀ b : Box, (0 : ℚ) ≤ max (b.x_max - b.x_min) 0 * max (b.y_max - b.y_min) 0 := by
  constructor
  · rw [validityFilterStage_eq, if_pos h1, if_pos h2]
  · intro b
    exact mul_nonneg (le_max_right _ _) (le_max_right _ _)

/-- Claim C6: whenever the row counts of proposals, class probabilities and
delta blocks are not all equal on entry, `_build` fails with `ShapeMismatch`
(the explicit `tf.assert_equal` catches a proposal/delta mismatch, and the
`tf.boolean_mask` shape contract catches a proposal/probability mismatch). -/
theorem c6_row_count_mismatch_fails (m : RCNNProposal)
    (proposals bbox_pred cls_prob : List (List ℚ)) (im : ℚ × ℚ)
    (h : ¬(proposals.length = bbox_pred.length ∧ proposals.length = cls_prob.length)) :
    m.build proposals bbox_pred cls_prob im = .error .shapeMismatch := by
  unfold RCNNProposal.build
  dsimp only
  have hlf : labelFilterStage m.min_prob_threshold (proposals.map (List.drop 1)) bbox_pred
      cls_prob = .error .shapeMismatch := by
    rw [labelFilterStage_eq]
    by_cases h1 : (proposals.map (List.drop 1)).length = bbox_pred.length
    · have h1' : proposals.length = bbox_pred.length := by simpa using h1
      have h2 : ¬proposals.length = cls_prob.length := fun hc => h ⟨h1', hc⟩
      rw [if_pos h1, if_neg (by simpa using h2)]
    · rw [if_neg h1]
  rw [hlf]
  rfl

/-- Claim C10 (implicit): a row whose maximum is attained at the background
index 0 — including a foreground class tying the background, since the
arg-max resolves ties toward the lowest index — gets label `-1` and fails the
survival predicate of the label-assignment stage, for every
`min_prob_threshold`. -/
theorem c10_background_max_dropped (minProb : ℚ) (row : List ℚ) (hne : row ≠ [])
    (hmax : ∀ x ∈ row, x ≤ row.headD 0) :
    argmaxQ row = 0 ∧ keepRow minProb row = false := by
  cases row with
  | nil => exact absurd rfl hne
  | cons x0 xs =>
    have h0 : argmaxQ (x0 :: xs) = 0 :=
      argmaxAux_le 1 0 x0 xs fun x hx => hmax x (by simp [hx])
    refine ⟨h0, ?_⟩
    simp [keepRow, h0]

section DecideWitnesses

attribute [local semireducible] Rat.add Rat.mul Rat.inv Rat.sub Rat.ofScientific

theorem c2_label_assignment_witness :
    labelFilterStage (1/2) [[0, 0, 10, 10], [1, 1, 11, 11]]
        [[1, 2, 3, 4, 5, 6, 7, 8], [0, 0, 0, 0, 0, 0, 0, 0]]
        [[1/10, 4/5, 1/10], [9/10, 1/20, 1/20]] =
      .ok ([[0, 0, 10, 10]], [0], [4/5], [[1, 2, 3, 4, 5, 6, 7, 8]]) ∧
    (([[0, 0, 10, 10]] : List (List ℚ)) =
      ((([[0, 0, 10, 10], [1, 1, 11, 11]] : List (List ℚ)).zip
        ([[1/10, 4/5, 1/10], [9/10, 1/20, 1/20]] : List (List ℚ))).filter fun pc =>
          keepRow (1/2) pc.2).map (·.1) ∧
    ([0] : List ℤ) = (([[1/10, 4/5, 1/10], [9/10, 1/20, 1/20]] : List (List ℚ)).filter
        (keepRow (1/2))).map (fun r => (argmaxQ r : ℤ) - 1) ∧
    ([4/5] : List ℚ) = (([[1/10, 4/5, 1/10], [9/10, 1/20, 1/20]] : List (List ℚ)).filter
        (keepRow (1/2))).map rowMax ∧
    ([[1, 2, 3, 4, 5, 6, 7, 8]] : List (List ℚ)) =
      ((([[1, 2, 3, 4, 5, 6, 7, 8], [0, 0, 0, 0, 0, 0, 0, 0]] : List (List ℚ)).zip
        ([[1/10, 4/5, 1/10], [9/10, 1/20, 1/20]] : List (List ℚ))).filter fun pc =>
          keepRow (1/2) pc.2).map (·.1) ∧
    ∀ r : List ℚ, keepRow (1/2) r = true ↔ (0 ≤ (argmaxQ r : ℤ) - 1 ∧ 1/2 ≤ rowMax r)) :=
  ⟨by decide,
    c2_label_assignment (1/2) [[0, 0, 10, 10], [1, 1, 11, 11]]
      [[1, 2, 3, 4, 5, 6, 7, 8], [0, 0, 0, 0, 0, 0, 0, 0]]
      [[1/10, 4/5, 1/10], [9/10, 1/20, 1/20]]
      ([[0, 0, 10, 10]], [0], [4/5], [[1, 2, 3, 4, 5, 6, 7, 8]]) (by decide)⟩

theorem c5_validity_filter_noop_witness :
    ([(0 : ℤ), 1].length = ([⟨0, 0, 10, 10⟩, ⟨5, 5, 2, 2⟩] : List Box).length) ∧
    ([(4/5 : ℚ), 1/2].length = ([⟨0, 0, 10, 10⟩, ⟨5, 5, 2, 2⟩] : List Box).length) ∧
    (validityFilterStage [⟨0, 0, 10, 10⟩, ⟨5, 5, 2, 2⟩] [0, 1] [4/5, 1/2] =
      .ok ([⟨0, 0, 10, 10⟩, ⟨5, 5, 2, 2⟩], [0, 1], [4/5, 1/2]) ∧
    ∀ b : Box, (0 : ℚ) ≤ max (b.x_max - b.x_min) 0 * max (b.y_max - b.y_min) 0) :=
  ⟨by decide, by decide,
    c5_validity_filter_noop [⟨0, 0, 10, 10⟩, ⟨5, 5, 2, 2⟩] [0, 1] [4/5, 1/2]
      (by decide) (by decide)⟩

theorem c6_row_count_mismatch_fails_witness :
    (¬(([[0, 0, 0, 10, 10]] : List (List ℚ)).length =
        ([[0, 0, 0, 0, 0, 0, 0, 0]] : List (List ℚ)).length ∧
      ([[0, 0, 0, 10, 10]] : List (List ℚ)).length =
        ([[1/10, 4/5, 1/10], [1/20, 1/20, 9/10]] : List (List ℚ)).length)) ∧
    scenarioModule.build [[0, 0, 0, 10, 10]] [[0, 0, 0, 0, 0, 0, 0, 0]]
      [[1/10, 4/5, 1/10], [1/20, 1/20, 9/10]] (100, 100) = .error .shapeMismatch :=
  ⟨by decide,
    c6_row_count_mismatch_fails scenarioModule [[0, 0, 0, 10, 10]]
      [[0, 0, 0, 0, 0, 0, 0, 0]] [[1/10, 4/5, 1/10], [1/20, 1/20, 9/10]] (100, 100)
      (by decide)⟩

theorem c10_background_max_dropped_witness :
    ([(1/2 : ℚ), 1/2, 1/4] ≠ []) ∧
    (∀ x ∈ [(1/2 : ℚ), 1/2, 1/4], x ≤ [(1/2 : ℚ), 1/2, 1/4].headD 0) ∧
    (argmaxQ [1/2, 1/2, 1/4] = 0 ∧ keepRow 0 [1/2, 1/2, 1/4] = false) :=
  ⟨by decide, by decide,
    c10_background_max_dropped 0 [1/2, 1/2, 1/4] (by decide) (by decide)⟩

end DecideWitnesses

theorem iou_comm (a b : Box) : iou a b = iou b a := by
  unfold iou
  rw [min_comm a.x_max, max_comm a.x_min, min_comm a.y_max, max_comm a.y_min,
    add_comm ((a.x_max - a.x_min) * (a.y_max - a.y_min))]

theorem rankLt_irrefl (a : ℕ × ℚ) : rankLt a a = false := by
  simp [rankLt]

theorem rankLt_trans {a b c : ℕ × ℚ} (h1 : rankLt a b = true) (h2 : rankLt b c = true) :
    rankLt a c = true := by
  simp only [rankLt, Bool.or_eq_true, Bool.and_eq_true, decide_eq_true_eq] at *
  rcases h1 with h1 | ⟨h1e, h1i⟩
  · rcases h2 with h2 | ⟨h2e, h2i⟩
    · exact Or.inl (h2.trans h1)
    · exact Or.inl (h2e ▸ h1)
  · rcases h2 with h2 | ⟨h2e, h2i⟩
    · exact Or.inl (h1e ▸ h2)
    · exact Or.inr ⟨h1e.trans h2e, h1i.trans h2i⟩

theorem rankLt_asymm {a b : ℕ × ℚ} (h : rankLt a b = true) : rankLt b a = false := by
  by_contra hb
  rw [Bool.not_eq_false] at hb
  have := rankLt_trans h hb
  rw [rankLt_irrefl] at this
  exact Bool.false_ne_true this

theorem rank_not_lt_ge {a b : ℕ × ℚ} (h : rankLt b a = false) : b.2 ≤ a.2 := by
  by_contra hc
  have : rankLt b a = true := by
    simp only [rankLt, Bool.or_eq_true, decide_eq_true_eq]
    exact Or.inl (lt_of_not_le hc)
  rw [h] at this
  exact Bool.false_ne_true this

theorem mem_insertBy {lt : α → α → Bool} {x z : α} {l : List α} :
    z ∈ insertBy lt x l ↔ z = x ∨ z ∈ l := by
  induction l with
  | nil => simp [insertBy]
  | cons y ys ih =>
    unfold insertBy
    by_cases hxy : lt x y = true
    · rw [if_pos hxy]
      simp only [List.mem_cons, ih]
    · rw [if_neg hxy]
      simp only [List.mem_cons, ih]
      tauto

theorem insertBy_perm (lt : α → α → Bool) (x : α) (l : List α) :
    List.Perm (insertBy lt x l) (x :: l) := by
  induction l with
  | nil => rfl
  | cons y ys ih =>
    unfold insertBy
    by_cases hxy : lt x y = true
    · rw [if_pos hxy]
    · rw [if_neg hxy]
      exact (ih.cons y).trans (List.Perm.swap x y ys)

theorem sortBy_perm (lt : α → α → Bool) (l : List α) : List.Perm (sortBy lt l) l := by
  induction l with
  | nil => rfl
  | cons x xs ih =>
    exact (insertBy_perm lt x (sortBy lt xs)).trans (ih.cons x)

theorem insertBy_pairwise_rank (x : ℕ × ℚ) (l : List (ℕ × ℚ))
    (hl : l.Pairwise fun a b => rankLt b a = false) :
    (insertBy rankLt x l).Pairwise fun a b => rankLt b a = false := by
  induction l with
  | nil => simp [insertBy]
  | cons y ys ih =>
    rcases List.pairwise_cons.mp hl with ⟨hy, hys⟩
    unfold insertBy
    by_cases hxy : rankLt x y = true
    · rw [if_pos hxy]
      refine List.pairwise_cons.mpr ⟨?_, hl⟩
      intro z hz
      rcases List.mem_cons.mp hz with hzy | hzys
      · exact hzy ▸ rankLt_asymm hxy
      · by_contra hc
        rw [Bool.not_eq_false] at hc
        have hzy' : rankLt z y = true := rankLt_trans hc hxy
        rw [hy z hzys] at hzy'
        exact Bool.false_ne_true hzy'
    · rw [if_neg hxy]
      refine List.pairwise_cons.mpr ⟨?_, ih hys⟩
      intro z hz
      rcases mem_insertBy.mp hz with hzx | hzys
      · subst hzx
        exact Bool.not_eq_true _ ▸ (by simpa using hxy)
      · exact hy z hzys

theorem sortBy_pairwise_rank (l : List (ℕ × ℚ)) :
    (sortBy rankLt l).Pairwise fun a b => rankLt b a = false := by
  induction l with
  | nil => exact List.Pairwise.nil
  | cons x xs ih => exact insertBy_pairwise_rank x (sortBy rankLt xs) ih

theorem nmsLoop_append (boxes : List Box) (thr : ℚ) (maxOut : ℤ) :
    ∀ (cands sel : List (ℕ × ℚ)),
      ∃ s, s.Sublist cands ∧ nmsLoop boxes thr maxOut sel cands = sel ++ s := by
  intro cands
  induction cands with
  | nil => exact fun sel => ⟨[], List.Sublist.refl _, by simp [nmsLoop]⟩
  | cons c cs ih =>
    intro sel
    unfold nmsLoop
    by_cases hstop : maxOut ≤ (sel.length : ℤ)
    · rw [if_pos hstop]
      exact ⟨[], List.nil_sublist _, by simp⟩
    · rw [if_neg hstop]
      by_cases hsel : sel.all fun s =>
          decide (iou (boxes.getD s.1 dfltBox) (boxes.getD c.1 dfltBox) < thr)
      · rw [if_pos hsel]
        rcases ih (sel ++ [c]) with ⟨s, hs, heq⟩
        exact ⟨c :: s, hs.cons₂ c, by rw [heq, List.append_assoc]; rfl⟩
      · rw [if_neg hsel]
        rcases ih sel with ⟨s, hs, heq⟩
        exact ⟨s, hs.cons c, heq⟩

theorem nmsLoop_pairwise (boxes : List Box) (thr : ℚ) (maxOut : ℤ) :
    ∀ (cands sel : List (ℕ × ℚ)),
      (sel.Pairwise fun s c => iou (boxes.getD s.1 dfltBox) (boxes.getD c.1 dfltBox) < thr ∧
        iou (boxes.getD c.1 dfltBox) (boxes.getD s.1 dfltBox) < thr) →
      (nmsLoop boxes thr maxOut sel cands).Pairwise fun s c =>
        iou (boxes.getD s.1 dfltBox) (boxes.getD c.1 dfltBox) < thr ∧
        iou (boxes.getD c.1 dfltBox) (boxes.getD s.1 dfltBox) < thr := by
  intro cands
  induction cands with
  | nil => exact fun sel h => h
  | cons c cs ih =>
    intro sel hsel
    unfold nmsLoop
    by_cases hstop : maxOut ≤ (sel.length : ℤ)
    · rw [if_pos hstop]; exact hsel
    · rw [if_neg hstop]
      by_cases hall : sel.all fun s =>
          decide (iou (boxes.getD s.1 dfltBox) (boxes.getD c.1 dfltBox) < thr)
      · rw [if_pos hall]
        refine ih (sel ++ [c]) (List.pairwise_append.mpr ⟨hsel, by simp, ?_⟩)
        intro s hs c' hc'
        have hlt : iou (boxes.getD s.1 dfltBox) (boxes.getD c.1 dfltBox) < thr := by
          have := List.all_eq_true.mp hall s hs
          simpa using this
        rcases List.mem_singleton.mp hc' with rfl
        exact ⟨hlt, iou_comm (boxes.getD s.1 dfltBox) (boxes.getD c'.1 dfltBox) ▸ hlt⟩
      · rw [if_neg hall]
        exact ih sel hsel

theorem nmsLoop_length_le (boxes : List Box) (thr : ℚ) (maxOut : ℤ) :
    ∀ (cands sel : List (ℕ × ℚ)),
      (nmsLoop boxes thr maxOut sel cands).length ≤ max sel.length maxOut.toNat := by
  intro cands
  induction cands with
  | nil => exact fun sel => by simp [nmsLoop]
  | cons c cs ih =>
    intro sel
    unfold nmsLoop
    by_cases hstop : maxOut ≤ (sel.length : ℤ)
    · rw [if_pos hstop]; exact le_max_left _ _
    · rw [if_neg hstop]
      have hlt : (sel.length : ℤ) < maxOut := lt_of_not_le hstop
      have hle : sel.length + 1 ≤ maxOut.toNat := by omega
      by_cases hall : sel.all fun s =>
          decide (iou (boxes.getD s.1 dfltBox) (boxes.getD c.1 dfltBox) < thr)
      · rw [if_pos hall]
        calc (nmsLoop boxes thr maxOut (sel ++ [c]) cs).length
            ≤ max (sel ++ [c]).length maxOut.toNat := ih (sel ++ [c])
          _ ≤ max sel.length maxOut.toNat := by
              simp only [List.length_append, List.length_singleton]
              omega
      · rw [if_neg hall]
        exact ih sel

theorem nms_pairwise (boxes : List Box) (scores : List ℚ) (maxOut : ℤ) (thr : ℚ) :
    (nms boxes scores maxOut thr).Pairwise fun i j =>
      iou (boxes.getD i dfltBox) (boxes.getD j dfltBox) < thr ∧
      iou (boxes.getD j dfltBox) (boxes.getD i dfltBox) < thr := by
  have := nmsLoop_pairwise boxes thr maxOut (sortBy rankLt scores.enum) [] List.Pairwise.nil
  exact List.Pairwise.map _ (fun a b h => h) this

theorem nms_length_le (boxes : List Box) (scores : List ℚ) (maxOut : ℤ) (thr : ℚ) :
    (nms boxes scores maxOut thr).length ≤ maxOut.toNat := by
  have := nmsLoop_length_le boxes thr maxOut (sortBy rankLt scores.enum) []
  simpa [nms] using this

theorem forall₂_mem_right {α β : Type} {R : α → β → Prop} :
    ∀ {cs : List α} {rs : List β}, List.Forall₂ R cs rs → ∀ r ∈ rs, ∃ c ∈ cs, R c r := by
  intro cs rs h
  induction h with
  | nil => intro r hr; simp at hr
  | cons hR hrest ih =>
    intro r hr
    rcases List.mem_cons.mp hr with rfl | hr'
    · exact ⟨_, List.mem_cons_self _ _, hR⟩
    · rcases ih r hr' with ⟨c, hc, hcR⟩
      exact ⟨c, List.mem_cons_of_mem _ hc, hcR⟩

theorem topKStage_spec (totalMax : ℤ) (objects : List Box) (labels : List ℤ) (probs : List ℚ) :
    (topKStage totalMax objects labels probs).1.length ≤ totalMax.toNat ∧
    (topKStage totalMax objects labels probs).2.1.length =
      (topKStage totalMax objects labels probs).1.length ∧
    (topKStage totalMax objects labels probs).2.2.length =
      (topKStage totalMax objects labels probs).1.length ∧
    (topKStage totalMax objects labels probs).2.2.Pairwise (· ≥ ·) := by
  unfold topKStage
  dsimp only
  refine ⟨?_, by simp, by simp, ?_⟩
  · calc (((sortBy rankLt probs.enum).take (min totalMax (probs.length : ℤ)).toNat).map
          fun p => objects.getD p.1 dfltBox).length
        ≤ (min totalMax (probs.length : ℤ)).toNat := by
          simp [List.length_take]
      _ ≤ totalMax.toNat := Int.toNat_le_toNat (min_le_left _ _)
  · refine List.Pairwise.map _ (fun a b h => rank_not_lt_ge h) ?_
    exact List.Pairwise.sublist (List.take_sublist _ _) (sortBy_pairwise_rank probs.enum)

/-- Claim C3: any two boxes retained by the per-class NMS pass for the same
class have IoU strictly below `class_nms_threshold` (so a pair at exactly the
threshold is never jointly retained: the lower-ranked box is suppressed). -/
theorem c3_per_class_nms_iou (m : RCNNProposal) (proposals bbox_pred cls_prob : List (List ℚ))
    (im : ℚ × ℚ) (out : BuildOutput) (h : m.build proposals bbox_pred cls_prob im = .ok out) :
    ∀ bs ∈ out.selected_boxes, bs.Pairwise fun b1 b2 =>
      iou b1 b2 < m.class_nms_threshold ∧ iou b2 b1 < m.class_nms_threshold := by
  rcases build_ok_inv h with
    ⟨p1, l1, pr1, b1, deltas, raw, o2, l2, pr2, results, _, _, _, _, hres, hout⟩
  subst hout
  intro bs hbs
  have hbs' : bs ∈ results.map (·.1) := hbs
  rcases List.mem_map.mp hbs' with ⟨r, hr, hbsr⟩
  rcases forall₂_mem_right (classNMSStage_ok_iff.mp hres) r hr with ⟨c, _, hcp⟩
  rw [classPass_eq] at hcp
  dsimp only at hcp
  by_cases hc1 : (o2.map changeOrder).length = l2.length
  · by_cases hc2 : pr2.length = l2.length
    · rw [if_pos hc1, if_pos hc2] at hcp
      have hrv := (Except.ok.injEq _ _ ▸ hcp).symm
      subst hbsr
      rw [hrv]
      dsimp only
      refine List.pairwise_map.mpr ?_
      exact nms_pairwise _ _ _ _
    · rw [if_pos hc1, if_neg hc2] at hcp
      exact absurd hcp (by simp)
  · rw [if_neg hc1] at hcp
    exact absurd hcp (by simp)

/-- Claim C4: per class the emitted count never exceeds
`class_max_detections`; the final objects (and co-indexed labels and
probabilities) never exceed `total_max_detections`; the final output is
ordered by non-increasing probability. -/
theorem c4_output_caps_and_order (m : RCNNProposal) (proposals bbox_pred cls_prob : List (List ℚ))
    (im : ℚ × ℚ) (out : BuildOutput) (h : m.build proposals bbox_pred cls_prob im = .ok out) :
    (∀ bs ∈ out.selected_boxes, bs.length ≤ m.class_max_detections.toNat) ∧
    out.objects.length ≤ m.total_max_detections.toNat ∧
    out.proposal_label.length = out.objects.length ∧
    out.proposal_label_prob.length = out.objects.length ∧
    out.proposal_label_prob.Pairwise (· ≥ ·) := by
  rcases build_ok_inv h with
    ⟨p1, l1, pr1, b1, deltas, raw, o2, l2, pr2, results, _, _, _, _, hres, hout⟩
  subst hout
  refine ⟨?_, ?_, ?_, ?_, ?_⟩
  · intro bs hbs
    have hbs' : bs ∈ results.map (·.1) := hbs
    rcases List.mem_map.mp hbs' with ⟨r, hr, hbsr⟩
    rcases forall₂_mem_right (classNMSStage_ok_iff.mp hres) r hr with ⟨c, _, hcp⟩
    rw [classPass_eq] at hcp
    dsimp only at hcp
    by_cases hc1 : (o2.map changeOrder).length = l2.length
    · by_cases hc2 : pr2.length = l2.length
      · rw [if_pos hc1, if_pos hc2] at hcp
        have hrv := (Except.ok.injEq _ _ ▸ hcp).symm
        subst hbsr
        rw [hrv]
        dsimp only
        rw [List.length_map]
        exact nms_length_le _ _ _ _
      · rw [if_pos hc1, if_neg hc2] at hcp
        exact absurd hcp (by simp)
    · rw [if_neg hc1] at hcp
      exact absurd hcp (by simp)
  · exact (topKStage_spec m.total_max_detections
      ((results.map (·.1)).flatten.map changeOrder) (results.map (·.2.2)).flatten
      (results.map (·.2.1)).flatten).1
  · exact (topKStage_spec m.total_max_detections
      ((results.map (·.1)).flatten.map changeOrder) (results.map (·.2.2)).flatten
      (results.map (·.2.1)).flatten).2.1
  · exact (topKStage_spec m.total_max_detections
      ((results.map (·.1)).flatten.map changeOrder) (results.map (·.2.2)).flatten
      (results.map (·.2.1)).flatten).2.2.1
  · exact (topKStage_spec m.total_max_detections
      ((results.map (·.1)).flatten.map changeOrder) (results.map (·.2.2)).flatten
      (results.map (·.2.1)).flatten).2.2.2

section DecideWitnesses2

attribute [local semireducible] Rat.add Rat.mul Rat.inv Rat.sub Rat.ofScientific

theorem c3_per_class_nms_iou_witness :
    scenarioModule.build scenarioProposals scenarioDeltas scenarioClsProb (100, 100) =
      .ok { raw_objects := [⟨0, 0, 10, 10⟩, ⟨1, 1, 11, 11⟩, ⟨50, 50, 60, 60⟩],
            objects := [⟨50, 50, 60, 60⟩, ⟨0, 0, 10, 10⟩],
            proposal_label := [1, 0],
            proposal_label_prob := [9/10, 4/5],
            selected_boxes := [[⟨0, 0, 10, 10⟩], [⟨50, 50, 60, 60⟩]],
            selected_probs := [[4/5], [9/10]],
            selected_labels := [[0], [1]] } ∧
    ∀ bs ∈ ([[⟨0, 0, 10, 10⟩], [⟨50, 50, 60, 60⟩]] : List (List Box)),
      bs.Pairwise fun b1 b2 => iou b1 b2 < scenarioModule.class_nms_threshold ∧
        iou b2 b1 < scenarioModule.class_nms_threshold :=
  ⟨by decide,
    c3_per_class_nms_iou scenarioModule scenarioProposals scenarioDeltas scenarioClsProb
      (100, 100)
      { raw_objects := [⟨0, 0, 10, 10⟩, ⟨1, 1, 11, 11⟩, ⟨50, 50, 60, 60⟩],
        objects := [⟨50, 50, 60, 60⟩, ⟨0, 0, 10, 10⟩],
        proposal_label := [1, 0],
        proposal_label_prob := [9/10, 4/5],
        selected_boxes := [[⟨0, 0, 10, 10⟩], [⟨50, 50, 60, 60⟩]],
        selected_probs := [[4/5], [9/10]],
        selected_labels := [[0], [1]] } (by decide)⟩

theorem c4_output_caps_and_order_witness :
    scenarioModule.build scenarioProposals scenarioDeltas scenarioClsProb (100, 100) =
      .ok { raw_objects := [⟨0, 0, 10, 10⟩, ⟨1, 1, 11, 11⟩, ⟨50, 50, 60, 60⟩],
            objects := [⟨50, 50, 60, 60⟩, ⟨0, 0, 10, 10⟩],
            proposal_label := [1, 0],
            proposal_label_prob := [9/10, 4/5],
            selected_boxes := [[⟨0, 0, 10, 10⟩], [⟨50, 50, 60, 60⟩]],
            selected_probs := [[4/5], [9/10]],
            selected_labels := [[0], [1]] } ∧
    ((∀ bs ∈ ([[⟨0, 0, 10, 10⟩], [⟨50, 50, 60, 60⟩]] : List (List Box)),
        bs.length ≤ (10 : ℤ).toNat) ∧
      ([⟨50, 50, 60, 60⟩, ⟨0, 0, 10, 10⟩] : List Box).length ≤ (5 : ℤ).toNat ∧
      ([(1 : ℤ), 0]).length = ([⟨50, 50, 60, 60⟩, ⟨0, 0, 10, 10⟩] : List Box).length ∧
      ([(9 : ℚ)/10, 4/5]).length = ([⟨50, 50, 60, 60⟩, ⟨0, 0, 10, 10⟩] : List Box).length ∧
      ([(9 : ℚ)/10, 4/5]).Pairwise (· ≥ ·)) :=
  ⟨by decide,
    c4_output_caps_and_order scenarioModule scenarioProposals scenarioDeltas scenarioClsProb
      (100, 100)
      { raw_objects := [⟨0, 0, 10, 10⟩, ⟨1, 1, 11, 11⟩, ⟨50, 50, 60, 60⟩],
        objects := [⟨50, 50, 60, 60⟩, ⟨0, 0, 10, 10⟩],
        proposal_label := [1, 0],
        proposal_label_prob := [9/10, 4/5],
        selected_boxes := [[⟨0, 0, 10, 10⟩], [⟨50, 50, 60, 60⟩]],
        selected_probs := [[4/5], [9/10]],
        selected_labels := [[0], [1]] } (by decide)⟩

end DecideWitnesses2


/-! ### Support lemmas for the idempotence claim -/

theorem enum_mem_spec {l : List ℚ} {i : ℕ} {x : ℚ} (h : (i, x) ∈ l.enum) (d : ℚ) :
    i < l.length ∧ l.getD i d = x := by
  rcases List.mem_iff_getElem.mp h with ⟨j, hj, hget⟩
  have hj' : j < l.length := by simpa using hj
  rw [List.getElem_enum] at hget
  obtain ⟨rfl, rfl⟩ : j = i ∧ l[j] = x := by
    constructor
    · exact congrArg Prod.fst hget
    · exact congrArg Prod.snd hget
  exact ⟨hj', List.getD_eq_getElem l d hj'⟩

theorem map_enum_getD {α : Type} (l : List ℚ) (l' : List α) (d : α)
    (h : l'.length = l.length) : l.enum.map (fun p => l'.getD p.1 d) = l' := by
  apply List.ext_getElem
  · simp [h]
  · intro i h1 h2
    have hi : i < l.length := by simpa using h2.trans_eq h
    simp only [List.getElem_map, List.getElem_enum]
    exact List.getD_eq_getElem l' d h2

theorem zip3_map_of_same {α β γ δ : Type} (f : α → β) (g : α → γ) (k : α → δ) (l : List α) :
    zip3 (l.map f) (l.map g) (l.map k) = l.map fun x => (f x, g x, k x) := by
  induction l with
  | nil => rfl
  | cons x xs ih => simpa [zip3] using ih

theorem zip3_length {α β γ : Type} (a : List α) (b : List β) (c : List γ)
    (h1 : b.length = a.length) (h2 : c.length = a.length) :
    (zip3 a b c).length = a.length := by
  simp [zip3, h1, h2]

theorem map_fst_zip3 {α β γ : Type} (a : List α) (b : List β) (c : List γ)
    (h1 : b.length = a.length) (h2 : c.length = a.length) :
    (zip3 a b c).map (·.1) = a := by
  induction a generalizing b c with
  | nil => rfl
  | cons x xs ih =>
    cases b with
    | nil => simp at h1
    | cons y ys =>
      cases c with
      | nil => simp at h2
      | cons z zs =>
        simpa [zip3] using ih ys zs (by simpa using h1) (by simpa using h2)

theorem zip3_append {α β γ : Type} (a A : List α) (b B : List β) (c C : List γ)
    (h1 : b.length = a.length) (h2 : c.length = a.length) :
    zip3 (a ++ A) (b ++ B) (c ++ C) = zip3 a b c ++ zip3 A B C := by
  induction a generalizing b c with
  | nil =>
    cases b with
    | nil =>
      cases c with
      | nil => rfl
      | cons z zs => simp at h2
    | cons y ys => simp at h1
  | cons x xs ih =>
    cases b with
    | nil => simp at h1
    | cons y ys =>
      cases c with
      | nil => simp at h2
      | cons z zs =>
        simpa [zip3] using ih ys zs (by simpa using h1) (by simpa using h2)

theorem mem_zip3_parts {α β γ : Type} {a : List α} {b : List β} {c : List γ}
    {t : α × β × γ} (h : t ∈ zip3 a b c) : t.1 ∈ a ∧ t.2.1 ∈ b ∧ t.2.2 ∈ c := by
  obtain ⟨x, yz, rfl⟩ : ∃ x yz, t = (x, yz) := ⟨t.1, t.2, rfl⟩
  have h1 := List.of_mem_zip h
  exact ⟨h1.1, (List.of_mem_zip h1.2).1, (List.of_mem_zip h1.2).2⟩

theorem zip3_reassemble {α β : Type} (c : β) (l : List (α × β × ℚ))
    (h : ∀ t ∈ l, t.2.1 = c) :
    zip3 (l.map (·.1)) (List.replicate l.length c) (l.map (·.2.2)) = l := by
  induction l with
  | nil => rfl
  | cons t ts ih =>
    have ht : t.2.1 = c := h t (List.mem_cons_self _ _)
    have := ih fun u hu => h u (List.mem_cons_of_mem _ hu)
    simp only [List.map_cons, List.length_cons, List.replicate_succ, zip3, List.zip_cons_cons]
    rw [show ((t.1, c, t.2.2) : α × β × ℚ) = t by rw [← ht]]
    simpa [zip3] using this

theorem zip3_map_first {α β γ δ : Type} (f : α → δ) (a : List α) (b : List β) (c : List γ) :
    zip3 (a.map f) b c = (zip3 a b c).map fun t => (f t.1, t.2) := by
  induction a generalizing b c with
  | nil => rfl
  | cons x xs ih =>
    cases b with
    | nil => rfl
    | cons y ys =>
      cases c with
      | nil => rfl
      | cons z zs => simpa [zip3] using ih ys zs

theorem subperm_map {α β : Type} (f : α → β) {l l' : List α} (h : l.Subperm l') :
    (l.map f).Subperm (l'.map f) := by
  rcases h with ⟨w, hw1, hw2⟩
  exact ⟨w.map f, hw1.map f, hw2.map f⟩

theorem subperm_filter {α : Type} (p : α → Bool) {l l' : List α} (h : l.Subperm l') :
    (l.filter p).Subperm (l'.filter p) := by
  rcases h with ⟨w, hw1, hw2⟩
  exact ⟨w.filter p, hw1.filter p, hw2.filter p⟩

theorem pairwise_of_subperm {α : Type} {R : α → α → Prop} (hsym : Symmetric R)
    {l l' : List α} (h : l.Subperm l') (hpw : l'.Pairwise R) : l.Pairwise R := by
  rcases h with ⟨w, hw1, hw2⟩
  exact (List.Perm.pairwise_iff (fun hab => hsym hab) hw1).mp (List.Pairwise.sublist hw2 hpw)

theorem perm_flatten_of_forall₂ {α : Type} {as bs : List (List α)}
    (h : List.Forall₂ List.Perm as bs) : as.flatten.Perm bs.flatten := by
  induction h with
  | nil => exact List.Perm.refl _
  | cons hp hrest ih => simpa using hp.append ih

theorem flatten_filter {α : Type} (p : α → Bool) (ls : List (List α)) :
    ls.flatten.filter p = (ls.map fun l => l.filter p).flatten := by
  induction ls with
  | nil => rfl
  | cons l ls ih => simp [List.filter_append, ih]

theorem perm_flatten_filter_range {α : Type} (n : ℕ) (key : α → ℤ) (l : List α)
    (h : ∀ x ∈ l, ∃ c : ℕ, c < n ∧ key x = c) :
    (((List.range n).map fun (c : ℕ) =>
      l.filter fun x => decide (key x = (c : ℤ))).flatten).Perm l := by
  induction l with
  | nil => simp
  | cons x xs ih =>
    rcases h x (List.mem_cons_self _ _) with ⟨c0, hc0n, hc0⟩
    have hxs : ∀ y ∈ xs, ∃ c : ℕ, c < n ∧ key y = c :=
      fun y hy => h y (List.mem_cons_of_mem _ hy)
    have key_insert : ∀ cs : List ℕ, c0 ∈ cs → cs.Nodup →
        ((cs.map fun (c : ℕ) => (x :: xs).filter fun y => decide (key y = (c : ℤ))).flatten).Perm
          (x :: (cs.map fun (c : ℕ) => xs.filter fun y => decide (key y = (c : ℤ))).flatten) := by
      intro cs
      induction cs with
      | nil => intro hmem; simp at hmem
      | cons c cs' ihc =>
        intro hmem hnd
        rcases List.nodup_cons.mp hnd with ⟨hc_nin, hnd'⟩
        by_cases hcc : c = c0
        · subst hcc
          have hfilter_head : (x :: xs).filter (fun y => decide (key y = (c : ℤ))) =
              x :: xs.filter fun y => decide (key y = (c : ℤ)) := by
            rw [List.filter_cons, if_pos (by simp [hc0])]
          have htail : ∀ c' ∈ cs', ((x :: xs).filter fun y => decide (key y = ((c' : ℕ) : ℤ))) =
              xs.filter fun y => decide (key y = ((c' : ℕ) : ℤ)) := by
            intro c' hc'
            rw [List.filter_cons, if_neg]
            simp only [decide_eq_true_eq, hc0, Nat.cast_inj]
            intro heq
            exact hc_nin (heq ▸ hc')
          rw [List.map_cons, List.map_cons, hfilter_head, List.map_congr_left htail]
          simp
        · have hfilter_head : (x :: xs).filter (fun y => decide (key y = (c : ℤ))) =
              xs.filter fun y => decide (key y = (c : ℤ)) := by
            rw [List.filter_cons, if_neg]
            simp only [decide_eq_true_eq, hc0, Nat.cast_inj]
            exact fun heq => hcc heq.symm
          have hmem' : c0 ∈ cs' := by
            rcases List.mem_cons.mp hmem with h' | h'
            · exact absurd h'.symm hcc
            · exact h'
          rw [List.map_cons, List.map_cons, hfilter_head, List.flatten_cons,
            List.flatten_cons]
          exact (List.Perm.append_left _ (ihc hmem' hnd')).trans List.perm_middle
    exact (key_insert (List.range n) (List.mem_range.mpr hc0n) (List.nodup_range n)).trans
      ((ih hxs).cons x)

theorem argmaxAux_zeros_then (p : ℚ) (hp : 0 < p) :
    ∀ (t m i bi : ℕ), argmaxAux i bi 0 (List.replicate t 0 ++ p :: List.replicate m 0) = i + t := by
  intro t
  induction t with
  | zero =>
    intro m i bi
    simp only [List.replicate_zero, List.nil_append, argmaxAux, if_pos hp]
    rw [argmaxAux_le _ _ _ _ fun x hx => ?_]
    · omega
    · rw [List.eq_of_mem_replicate hx]
      exact hp.le
  | succ t ih =>
    intro m i bi
    simp only [List.replicate_succ, List.cons_append, argmaxAux, if_neg (lt_irrefl (0 : ℚ))]
    show argmaxAux (i + 1) bi 0 (List.replicate t 0 ++ p :: List.replicate m 0) = i + (t + 1)
    rw [ih m (i + 1) bi]
    omega

theorem argmaxQ_onehot (k m : ℕ) (p : ℚ) (hp : 0 < p) :
    argmaxQ (List.replicate k 0 ++ p :: List.replicate m 0) = k := by
  cases k with
  | zero =>
    simp only [List.replicate_zero, List.nil_append, argmaxQ]
    exact argmaxAux_le _ _ _ _ fun x hx => (List.eq_of_mem_replicate hx) ▸ hp.le
  | succ t =>
    simp only [List.replicate_succ, List.cons_append, argmaxQ]
    rw [argmaxAux_zeros_then p hp t m 1 0]
    omega

theorem foldl_max_replicate_zero (a : ℚ) (ha : 0 ≤ a) :
    ∀ m, List.foldl max a (List.replicate m 0) = a := by
  intro m
  induction m with
  | zero => rfl
  | succ t ih =>
    simp only [List.replicate_succ, List.foldl_cons]
    rw [max_eq_left ha]
    exact ih

theorem rowMax_onehot (k m : ℕ) (p : ℚ) (hp : 0 < p) :
    rowMax (List.replicate k 0 ++ p :: List.replicate m 0) = p := by
  cases k with
  | zero =>
    simp only [List.replicate_zero, List.nil_append, rowMax]
    exact foldl_max_replicate_zero p hp.le m
  | succ t =>
    simp only [List.replicate_succ, List.cons_append, rowMax, List.foldl_append,
      List.foldl_cons]
    rw [foldl_max_replicate_zero 0 le_rfl t, max_eq_right hp.le,
      foldl_max_replicate_zero p hp.le m]

theorem range_map_onehot (N k : ℕ) (p : ℚ) (hk : k < N) :
    (List.range N).map (fun j => if j = k then p else 0) =
      List.replicate k 0 ++ p :: List.replicate (N - k - 1) 0 := by
  apply List.ext_getElem
  · simp
    omega
  · intro i h1 h2
    simp only [List.getElem_map, List.getElem_range]
    by_cases hik : i < k
    · rw [if_neg (by omega), List.getElem_append_left (by simpa using hik),
        List.getElem_replicate]
    · by_cases hieq : i = k
      · subst hieq
        rw [if_pos rfl, List.getElem_append_right (by simp)]
        simp
      · rw [if_neg hieq, List.getElem_append_right (by simp; omega)]
        have : i - k ≠ 0 := by omega
        rcases Nat.exists_eq_succ_of_ne_zero this with ⟨j, hj⟩
        simp only [List.length_replicate, hj, List.getElem_cons_succ, List.getElem_replicate]

theorem encRow_eval (n : ℕ) (l : ℤ) (p : ℚ) (hl0 : 0 ≤ l) (hln : l < n) (hp : 0 < p) :
    argmaxQ ((List.range (n + 1)).map fun (j : ℕ) => if (j : ℤ) = l + 1 then p else 0) =
      l.toNat + 1 ∧
    rowMax ((List.range (n + 1)).map fun (j : ℕ) => if (j : ℤ) = l + 1 then p else 0) = p := by
  have hcast : ∀ j : ℕ, ((j : ℤ) = l + 1) ↔ (j = l.toNat + 1) := by
    intro j
    omega
  have hrew : ((List.range (n + 1)).map fun (j : ℕ) => if (j : ℤ) = l + 1 then p else 0) =
      (List.range (n + 1)).map fun j => if j = l.toNat + 1 then p else 0 := by
    apply List.map_congr_left
    intro j _
    by_cases hj : (j : ℤ) = l + 1
    · rw [if_pos hj, if_pos ((hcast j).mp hj)]
    · rw [if_neg hj, if_neg fun hj' => hj ((hcast j).mpr hj')]
  have hk : l.toNat + 1 < n + 1 := by omega
  rw [hrew, range_map_onehot (n + 1) (l.toNat + 1) p hk]
  exact ⟨argmaxQ_onehot _ _ p hp, rowMax_onehot _ _ p hp⟩

theorem flatten_const_replicate {α : Type} (k : ℕ) (x : ℚ) (l : List α) :
    (l.map fun _ => List.replicate k x).flatten = List.replicate (l.length * k) x := by
  induction l with
  | nil => simp
  | cons a as ih =>
    simp only [List.map_cons, List.flatten_cons, ih, List.length_cons]
    rw [← List.replicate_add]
    congr 1
    ring

theorem chunk4_replicate (t : ℕ) :
    chunk4 (List.replicate (4 * t) 0) = .ok (List.replicate t [0, 0, 0, 0]) := by
  induction t with
  | zero => rfl
  | succ s ih =>
    have hrep : List.replicate (4 * (s + 1)) (0 : ℚ) =
        0 :: 0 :: 0 :: 0 :: List.replicate (4 * s) 0 := by
      have h4 : 4 * (s + 1) = (((4 * s + 1) + 1) + 1) + 1 := by ring
      rw [h4, List.replicate_succ, List.replicate_succ, List.replicate_succ,
        List.replicate_succ]
    rw [hrep]
    unfold chunk4
    rw [ih]
    rfl

theorem maskList_replicate {α : Type} (x : α) (m : List Bool) :
    maskList (List.replicate m.length x) m = List.replicate (m.countP id) x := by
  induction m with
  | nil => rfl
  | cons b bs ih =>
    simp only [List.length_cons, List.replicate_succ, maskList_cons]
    cases b with
    | true =>
      rw [if_pos rfl, ih, List.countP_cons]
      simp [List.replicate_succ]
    | false =>
      rw [if_neg (by simp), ih, List.countP_cons]
      simp

theorem countP_range_unique (n k : ℕ) (hk : k < n) :
    (List.range n).countP (fun j => decide (j = k)) = 1 := by
  induction n with
  | zero => omega
  | succ t ih =>
    rw [List.range_succ, List.countP_append]
    by_cases hkt : k < t
    · rw [ih hkt]
      simp only [List.countP_cons, List.countP_nil]
      have hne : decide (t = k) = false := decide_eq_false (by omega)
      simp [List.countP_cons, hne]
    · have hkeq : k = t := by omega
      subst hkeq
      have hz : (List.range k).countP (fun j => decide (j = k)) = 0 := by
        rw [List.countP_eq_zero]
        intro j hj
        simp only [decide_eq_true_eq]
        exact Nat.ne_of_lt (List.mem_range.mp hj)
      rw [hz]
      simp

theorem oneHotRow_countP (n : ℕ) (l : ℤ) (h0 : 0 ≤ l) (hn : l < n) :
    (oneHotRow n l).countP id = 1 := by
  unfold oneHotRow
  rw [List.countP_map]
  have hcongr : ∀ j ∈ List.range n,
      ((id ∘ fun (j : ℕ) => decide ((j : ℤ) = l)) j = true ↔ decide (j = l.toNat) = true) := by
    intro j _
    simp only [Function.comp_apply, id, decide_eq_true_eq]
    omega
  rw [List.countP_congr hcongr]
  exact countP_range_unique n l.toNat (by omega)

theorem oneHotRow_length (n : ℕ) (l : ℤ) : (oneHotRow n l).length = n := by
  simp [oneHotRow]

theorem clip_coord_idem (M x : ℚ) : min (max (min (max x 0) M) 0) M = min (max x 0) M := by
  rcases le_total (max x 0) M with h | h
  · rw [min_eq_left h, max_eq_left (le_max_right x 0), min_eq_left h]
  · rw [min_eq_right h]
    rcases le_total 0 M with hM | hM
    · rw [max_eq_left hM, min_self]
    · rw [max_eq_right hM, min_eq_right hM]

theorem clipBox_idem (im : ℚ × ℚ) (b : Box) : clipBox im (clipBox im b) = clipBox im b := by
  unfold clipBox
  simp only [clip_coord_idem]

theorem changeOrder_changeOrder (b : Box) : changeOrder (changeOrder b) = b := rfl

theorem maskList_map {α β : Type} (f : α → β) (l : List α) (m : List Bool) :
    maskList (l.map f) m = (maskList l m).map f := by
  induction l generalizing m with
  | nil => simp
  | cons x xs ih =>
    cases m with
    | nil => simp
    | cons b bs =>
      rw [List.map_cons, maskList_cons, maskList_cons]
      cases b
      · rw [if_neg (by simp), if_neg (by simp)]
        exact ih bs
      · rw [if_pos rfl, if_pos rfl, List.map_cons, ih bs]

section QexpZero
attribute [local semireducible] Rat.add Rat.mul Rat.inv Rat.sub Rat.ofScientific
theorem qexp_zero : qexp 0 = 1 := by decide
end QexpZero

theorem decodeRow_coords (x1 y1 x2 y2 : ℚ) :
    decodeRow [x1, y1, x2, y2] [0, 0, 0, 0] = .ok ⟨x1, y1, x2, y2⟩ := by
  unfold decodeRow
  dsimp only
  rw [qexp_zero]
  norm_num
  constructor
  · ring
  · ring

theorem decodeRow_zero (b : Box) :
    decodeRow [b.x_min, b.y_min, b.x_max, b.y_max] [0, 0, 0, 0] = .ok b :=
  decodeRow_coords b.x_min b.y_min b.x_max b.y_max

theorem mapM_map_ok {α β γ : Type} (g : α → β) (f : β → Except TfError γ) (k : α → γ)
    (l : List α) (h : ∀ x ∈ l, f (g x) = .ok (k x)) : (l.map g).mapM f = .ok (l.map k) := by
  induction l with
  | nil => rfl
  | cons x xs ih =>
    rw [List.map_cons, List.map_cons, List.mapM_cons, h x (List.mem_cons_self _ _),
      ih fun y hy => h y (List.mem_cons_of_mem _ hy)]
    rfl

theorem zip_map_replicate {α β γ : Type} (f : α → β) (a : γ) (l : List α) :
    (l.map f).zip (List.replicate l.length a) = l.map fun x => (f x, a) := by
  induction l with
  | nil => rfl
  | cons x xs ih => simp [List.replicate_succ, ih]

theorem decode_zero (O : List Box) :
    decode (O.map fun b => [b.x_min, b.y_min, b.x_max, b.y_max])
      (List.replicate O.length [0, 0, 0, 0]) = .ok O := by
  unfold decode
  rw [if_pos (by simp)]
  rw [zip_map_replicate]
  have := mapM_map_ok (fun b : Box => ([b.x_min, b.y_min, b.x_max, b.y_max], ([0,0,0,0] : List ℚ)))
    (fun pd => decodeRow pd.1 pd.2) id O (fun b _ => decodeRow_zero b)
  rw [List.map_id] at this
  exact this

theorem flatten_length_eq_of {α β : Type} {as : List (List α)} {bs : List (List β)}
    (h : List.Forall₂ (fun a b => a.length = b.length) as bs) :
    as.flatten.length = bs.flatten.length := by
  induction h with
  | nil => rfl
  | cons hp hrest ih => simp [hp, ih]

theorem forall₂_map_map {α β γ : Type} {l : List α} (f : α → List β) (g : α → List γ)
    (h : ∀ x ∈ l, (f x).length = (g x).length) :
    List.Forall₂ (fun a b => a.length = b.length) (l.map f) (l.map g) := by
  induction l with
  | nil => exact .nil
  | cons x xs ih =>
    exact .cons (h x (List.mem_cons_self _ _)) (ih fun y hy => h y (List.mem_cons_of_mem _ hy))

theorem flatten_length_const {α β : Type} (ls : List α) (f : α → List β) (k : ℕ)
    (h : ∀ x ∈ ls, (f x).length = k) : (ls.map f).flatten.length = ls.length * k := by
  induction ls with
  | nil => simp
  | cons x xs ih =>
    simp only [List.map_cons, List.flatten_cons, List.length_append, List.length_cons,
      h x (List.mem_cons_self _ _), ih fun y hy => h y (List.mem_cons_of_mem _ hy)]
    ring

theorem countP_flatten_ones {α : Type} (ls : List α) (f : α → List Bool)
    (h : ∀ x ∈ ls, (f x).countP id = 1) : ((ls.map f).flatten).countP id = ls.length := by
  induction ls with
  | nil => rfl
  | cons x xs ih =>
    simp only [List.map_cons, List.flatten_cons, List.countP_append, List.length_cons,
      h x (List.mem_cons_self _ _), ih fun y hy => h y (List.mem_cons_of_mem _ hy)]
    omega

theorem min_toNat_idem (t c : ℤ) :
    (min t (((min t c).toNat : ℕ) : ℤ)).toNat = (min t c).toNat := by omega

theorem maskList_zip3_pred {α : Type} (p : ℤ → Bool) :
    ∀ (O : List α) (L : List ℤ) (P : List ℚ), L.length = O.length → P.length = O.length →
    maskList O (L.map p) = ((zip3 O L P).filter fun t => p t.2.1).map (·.1) ∧
    maskList P (L.map p) = ((zip3 O L P).filter fun t => p t.2.1).map (·.2.2) := by
  intro O
  induction O with
  | nil =>
    intro L P h1 h2
    rw [List.length_nil, List.length_eq_zero] at h1 h2
    subst h1; subst h2
    simp [zip3]
  | cons o os ih =>
    intro L P h1 h2
    cases L with
    | nil => simp at h1
    | cons l ls =>
      cases P with
      | nil => simp at h2
      | cons q qs =>
        have h1' : ls.length = os.length := by simpa using h1
        have h2' : qs.length = os.length := by simpa using h2
        rcases ih ls qs h1' h2' with ⟨ihO, ihP⟩
        simp only [List.map_cons, maskList_cons, zip3, List.zip_cons_cons, List.filter_cons]
        by_cases hp : p l = true
        · rw [if_pos hp, if_pos hp, if_pos (by simpa using hp)]
          constructor
          · rw [List.map_cons]
            exact congrArg _ ihO
          · rw [List.map_cons]
            exact congrArg _ ihP
        · rw [if_neg hp, if_neg hp, if_neg (by simpa using hp)]
          exact ⟨ihO, ihP⟩

theorem nmsLoop_keep_all (boxes : List Box) (thr : ℚ) (maxOut : ℤ) :
    ∀ (cands sel : List (ℕ × ℚ)),
      ((sel.length + cands.length : ℤ) ≤ maxOut) →
      ((sel ++ cands).Pairwise fun s c =>
        iou (boxes.getD s.1 dfltBox) (boxes.getD c.1 dfltBox) < thr ∧
        iou (boxes.getD c.1 dfltBox) (boxes.getD s.1 dfltBox) < thr) →
      nmsLoop boxes thr maxOut sel cands = sel ++ cands := by
  intro cands
  induction cands with
  | nil =>
    intro sel _ _
    simp [nmsLoop]
  | cons c cs ih =>
    intro sel hcard hpw
    have hcard' : (sel.length : ℤ) + (cs.length : ℤ) + 1 ≤ maxOut := by
      simp only [List.length_cons] at hcard
      push_cast at hcard
      omega
    unfold nmsLoop
    have hall : (sel.all fun s =>
        decide (iou (boxes.getD s.1 dfltBox) (boxes.getD c.1 dfltBox) < thr)) = true := by
      rw [List.all_eq_true]
      intro s hs
      rcases List.pairwise_append.mp hpw with ⟨_, _, hcross⟩
      exact decide_eq_true (hcross s hs c (List.mem_cons_self _ _)).1
    rw [if_neg (not_le.mpr (show (sel.length : ℤ) < maxOut by omega)), if_pos hall]
    have hassoc : (sel ++ [c]) ++ cs = sel ++ c :: cs := by simp
    have hcard2 : ((sel ++ [c]).length : ℤ) + (cs.length : ℤ) ≤ maxOut := by
      rw [List.length_append, List.length_singleton]
      push_cast
      omega
    rw [ih (sel ++ [c]) hcard2 (by rw [hassoc]; exact hpw), hassoc]

theorem enum_pairwise_boxes (boxes : List Box) (scores : List ℚ) (thr : ℚ)
    (hlen : boxes.length = scores.length)
    (hpw : boxes.Pairwise fun b1 b2 => iou b1 b2 < thr ∧ iou b2 b1 < thr) :
    scores.enum.Pairwise fun s c =>
      iou (boxes.getD s.1 dfltBox) (boxes.getD c.1 dfltBox) < thr ∧
      iou (boxes.getD c.1 dfltBox) (boxes.getD s.1 dfltBox) < thr := by
  rw [List.pairwise_iff_getElem] at hpw ⊢
  intro i j hi hj hij
  have hi' : i < boxes.length := by rw [hlen]; simpa using hi
  have hj' : j < boxes.length := by rw [hlen]; simpa using hj
  rw [List.getElem_enum, List.getElem_enum]
  show iou (boxes.getD i dfltBox) (boxes.getD j dfltBox) < thr ∧
    iou (boxes.getD j dfltBox) (boxes.getD i dfltBox) < thr
  rw [List.getD_eq_getElem boxes dfltBox hi', List.getD_eq_getElem boxes dfltBox hj']
  exact hpw i j hi' hj' hij

theorem nms_keep_all (boxes : List Box) (scores : List ℚ) (maxOut : ℤ) (thr : ℚ)
    (hlen : boxes.length = scores.length)
    (hcard : (scores.length : ℤ) ≤ maxOut)
    (hpw : boxes.Pairwise fun b1 b2 => iou b1 b2 < thr ∧ iou b2 b1 < thr) :
    nms boxes scores maxOut thr = (sortBy rankLt scores.enum).map (·.1) := by
  unfold nms
  have hperm := sortBy_perm rankLt scores.enum
  have hlen2 : (sortBy rankLt scores.enum).length = scores.length := by
    rw [hperm.length_eq, List.enum_length]
  have hpwe := enum_pairwise_boxes boxes scores thr hlen hpw
  have hpws : (sortBy rankLt scores.enum).Pairwise fun s c =>
      iou (boxes.getD s.1 dfltBox) (boxes.getD c.1 dfltBox) < thr ∧
      iou (boxes.getD c.1 dfltBox) (boxes.getD s.1 dfltBox) < thr := by
    refine (List.Perm.pairwise_iff (fun hab => ⟨hab.2, hab.1⟩) hperm).mpr hpwe
  rw [nmsLoop_keep_all boxes thr maxOut (sortBy rankLt scores.enum) []
    (by rw [List.length_nil, hlen2]; omega) (by simpa using hpws)]
  simp

theorem nms_mem_lt {boxes : List Box} {scores : List ℚ} {maxOut : ℤ} {thr : ℚ} {i : ℕ}
    (h : i ∈ nms boxes scores maxOut thr) : i < scores.length := by
  unfold nms at h
  rcases List.mem_map.mp h with ⟨pr, hpr, rfl⟩
  rcases nmsLoop_append boxes thr maxOut (sortBy rankLt scores.enum) [] with ⟨s, hs, heq⟩
  rw [heq, List.nil_append] at hpr
  have h1 : pr ∈ sortBy rankLt scores.enum := hs.subset hpr
  have h2 : pr ∈ scores.enum := (sortBy_perm rankLt scores.enum).subset h1
  obtain ⟨a, b⟩ := pr
  exact (enum_mem_spec h2 0).1

theorem nms_gather_mem {boxes : List Box} {scores : List ℚ} {maxOut : ℤ} {thr : ℚ} {i : ℕ}
    (h : i ∈ nms boxes scores maxOut thr) (hlen : boxes.length = scores.length) (d : Box) :
    boxes.getD i d ∈ boxes := by
  have hi : i < boxes.length := by rw [hlen]; exact nms_mem_lt h
  rw [List.getD_eq_getElem boxes d hi]
  exact List.getElem_mem hi

theorem zip3_getD {α β γ : Type} (a : List α) (b : List β) (c : List γ)
    (h1 : b.length = a.length) (h2 : c.length = a.length) (i : ℕ) (hi : i < a.length)
    (da : α) (db : β) (dc : γ) :
    (zip3 a b c).getD i (da, db, dc) = (a.getD i da, b.getD i db, c.getD i dc) := by
  have hz : i < (zip3 a b c).length := by rw [zip3_length a b c h1 h2]; exact hi
  rw [List.getD_eq_getElem _ _ hz, List.getD_eq_getElem _ _ hi,
    List.getD_eq_getElem _ _ (h1 ▸ hi), List.getD_eq_getElem _ _ (h2 ▸ hi)]
  show (a.zip (b.zip c))[i] = _
  rw [List.getElem_zip, List.getElem_zip]

theorem flatten_nil_of_all {α : Type} (ls : List (List α)) (h : ∀ l ∈ ls, l = []) :
    ls.flatten = [] := by
  induction ls with
  | nil => rfl
  | cons l ls ih =>
    rw [List.flatten_cons, h l (List.mem_cons_self _ _), List.nil_append]
    exact ih fun l' hl' => h l' (List.mem_cons_of_mem _ hl')

theorem forall₂_map_left {α β γ : Type} {R : α → β → Prop} {S : γ → β → Prop} (f : α → γ)
    (h : ∀ a b, R a b → S (f a) b) :
    ∀ {cs : List α} {rs : List β}, List.Forall₂ R cs rs → List.Forall₂ S (cs.map f) rs := by
  intro cs rs hf
  induction hf with
  | nil => exact .nil
  | cons hR hrest ih => exact .cons (h _ _ hR) ih

theorem zip3_flatten_tri (rs : List (List Box × List ℤ × List ℚ))
    (h : ∀ r ∈ rs, r.2.1.length = r.1.length ∧ r.2.2.length = r.1.length) :
    zip3 (rs.map (·.1)).flatten (rs.map (·.2.1)).flatten (rs.map (·.2.2)).flatten =
      (rs.map fun r => zip3 r.1 r.2.1 r.2.2).flatten := by
  induction rs with
  | nil => rfl
  | cons r rest ih =>
    simp only [List.map_cons, List.flatten_cons]
    rw [zip3_append _ _ _ _ _ _ (h r (List.mem_cons_self _ _)).1
      (h r (List.mem_cons_self _ _)).2,
      ih fun r' hr' => h r' (List.mem_cons_of_mem _ hr')]

theorem classPass_ok_inv {maxDet : ℤ} {thr : ℚ} {objects_tf : List Box} {labels : List ℤ}
    {probs : List ℚ} {c : ℕ} {r : List Box × List ℚ × List ℤ}
    (hcp : classPass maxDet thr objects_tf labels probs c = .ok r) :
    objects_tf.length = labels.length ∧ probs.length = labels.length ∧
    r = ((nms (maskList objects_tf (labels.map fun l => decide (l = (c : ℤ))))
            (maskList probs (labels.map fun l => decide (l = (c : ℤ)))) maxDet thr).map
          fun i => (maskList objects_tf (labels.map fun l => decide (l = (c : ℤ)))).getD i dfltBox,
         (nms (maskList objects_tf (labels.map fun l => decide (l = (c : ℤ))))
            (maskList probs (labels.map fun l => decide (l = (c : ℤ)))) maxDet thr).map
          (fun i => (maskList probs (labels.map fun l => decide (l = (c : ℤ)))).getD i 0),
         List.replicate (nms (maskList objects_tf (labels.map fun l => decide (l = (c : ℤ))))
            (maskList probs (labels.map fun l => decide (l = (c : ℤ)))) maxDet thr).length
           (c : ℤ)) := by
  rw [classPass_eq] at hcp
  dsimp only at hcp
  by_cases h1 : objects_tf.length = labels.length
  · by_cases h2 : probs.length = labels.length
    · rw [if_pos h1, if_pos h2] at hcp
      exact ⟨h1, h2, (Except.ok.injEq _ _ ▸ hcp).symm⟩
    · rw [if_pos h1, if_neg h2] at hcp
      exact absurd hcp (by simp)
  · rw [if_neg h1] at hcp
    exact absurd hcp (by simp)

theorem filter_blocks_props {R : (Box × ℤ × ℚ) → (Box × ℤ × ℚ) → Prop} {K : ℕ} :
    ∀ {cs : List ℤ} {bls : List (List (Box × ℤ × ℚ))},
      List.Forall₂ (fun c bl => (∀ t ∈ bl, t.2.1 = c) ∧ bl.Pairwise R ∧ bl.length ≤ K) cs bls →
      cs.Nodup →
      ∀ c : ℤ, ((bls.map fun bl => bl.filter fun t => decide (t.2.1 = c)).flatten).Pairwise R ∧
        ((bls.map fun bl => bl.filter fun t => decide (t.2.1 = c)).flatten).length ≤ K := by
  intro cs bls hf
  induction hf with
  | nil =>
    intro _ c
    exact ⟨List.Pairwise.nil, by simp⟩
  | @cons c0 bl cs' bls' hhead hrest ih =>
    intro hnd c
    rcases List.nodup_cons.mp hnd with ⟨hc_nin, hnd'⟩
    rcases hhead with ⟨hlab, hpw, hK⟩
    rw [List.map_cons, List.flatten_cons]
    by_cases hcc : c = c0
    · subst hcc
      have hbl : bl.filter (fun t => decide (t.2.1 = c)) = bl :=
        List.filter_eq_self.mpr fun t ht => decide_eq_true (hlab t ht)
      have hrest_nil : (bls'.map fun bl' => bl'.filter fun t => decide (t.2.1 = c)).flatten
          = [] := by
        apply flatten_nil_of_all
        intro l hl
        rcases List.mem_map.mp hl with ⟨bl', hbl', rfl⟩
        rcases forall₂_mem_right hrest bl' hbl' with ⟨c', hc', hprops⟩
        rw [List.filter_eq_nil_iff]
        intro t ht
        simp only [decide_eq_true_eq]
        rw [hprops.1 t ht]
        intro heq
        exact hc_nin (heq ▸ hc')
      rw [hbl, hrest_nil, List.append_nil]
      exact ⟨hpw, hK⟩
    · have hbl : bl.filter (fun t => decide (t.2.1 = c)) = [] := by
        rw [List.filter_eq_nil_iff]
        intro t ht
        simp only [decide_eq_true_eq]
        rw [hlab t ht]
        exact fun heq => hcc heq.symm
      rw [hbl, List.nil_append]
      exact ih hnd' c

theorem forall₂_map_both {α β γ δ : Type} {R : α → β → Prop} {S : γ → δ → Prop}
    (f : α → γ) (g : β → δ) (h : ∀ a b, R a b → S (f a) (g b)) :
    ∀ {cs : List α} {rs : List β}, List.Forall₂ R cs rs →
      List.Forall₂ S (cs.map f) (rs.map g) := by
  intro cs rs hf
  induction hf with
  | nil => exact .nil
  | cons hR hrest ih => exact .cons (h _ _ hR) ih

theorem results_blocks_props {n : ℕ} {maxDet : ℤ} {thr : ℚ} {objects_tf : List Box}
    {labels : List ℤ} {probs : List ℚ} {results : List (List Box × List ℚ × List ℤ)}
    (hres : classNMSStage maxDet thr objects_tf labels probs (List.range n) = .ok results) :
    List.Forall₂ (fun (c : ℤ) bl =>
        (∀ t ∈ bl, t.2.1 = c) ∧
        bl.Pairwise (fun t1 t2 => iou (changeOrder t1.1) (changeOrder t2.1) < thr ∧
          iou (changeOrder t2.1) (changeOrder t1.1) < thr) ∧
        bl.length ≤ maxDet.toNat)
      ((List.range n).map fun (c : ℕ) => (c : ℤ))
      (results.map fun r => zip3 (r.1.map changeOrder) r.2.2 r.2.1) := by
  refine forall₂_map_both _ _ ?_ (classNMSStage_ok_iff.mp hres)
  intro c r hcr
  rcases classPass_ok_inv hcr with ⟨h1, h2, hr⟩
  subst hr
  dsimp only
  set cf := labels.map fun l => decide (l = (c : ℤ)) with hcf
  set cb := maskList objects_tf cf with hcb
  set cp := maskList probs cf with hcp
  set idx := nms cb cp maxDet thr with hidx
  have hlen_bp : (idx.map fun i => cb.getD i dfltBox).length = idx.length := by simp
  have hlen_lb : (List.replicate idx.length (c : ℤ)).length =
      ((idx.map fun i => cb.getD i dfltBox).map changeOrder).length := by simp
  have hlen_pb : (idx.map fun i => cp.getD i 0).length =
      ((idx.map fun i => cb.getD i dfltBox).map changeOrder).length := by simp
  refine ⟨?_, ?_, ?_⟩
  · intro t ht
    have := (mem_zip3_parts ht).2.1
    exact List.eq_of_mem_replicate this
  · have hpw1 : (idx.map fun i => cb.getD i dfltBox).Pairwise fun b1 b2 =>
        iou b1 b2 < thr ∧ iou b2 b1 < thr :=
      List.pairwise_map.mpr (nms_pairwise cb cp maxDet thr)
    have hpw2 : ((idx.map fun i => cb.getD i dfltBox).map changeOrder).Pairwise
        fun a b => iou (changeOrder a) (changeOrder b) < thr ∧
          iou (changeOrder b) (changeOrder a) < thr := by
      refine List.pairwise_map.mpr (hpw1.imp ?_)
      intro a b hab
      rwa [changeOrder_changeOrder, changeOrder_changeOrder]
    have hfst : (zip3 ((idx.map fun i => cb.getD i dfltBox).map changeOrder)
        (List.replicate idx.length (c : ℤ)) (idx.map fun i => cp.getD i 0)).map (·.1) =
        (idx.map fun i => cb.getD i dfltBox).map changeOrder :=
      map_fst_zip3 _ _ _ hlen_lb hlen_pb
    have hiff := List.pairwise_map (l := zip3 ((idx.map fun i => cb.getD i dfltBox).map
        changeOrder) (List.replicate idx.length (c : ℤ)) (idx.map fun i => cp.getD i 0))
      (f := fun t : Box × ℤ × ℚ => t.1)
      (R := fun a b => iou (changeOrder a) (changeOrder b) < thr ∧
        iou (changeOrder b) (changeOrder a) < thr)
    exact hiff.mp (by rw [hfst]; exact hpw2)
  · rw [zip3_length _ _ _ hlen_lb hlen_pb]
    simp only [List.length_map]
    exact nms_length_le cb cp maxDet thr

theorem build_output_invariants {m : RCNNProposal} {prop bbox cls : List (List ℚ)}
    {im : ℚ × ℚ} {out : BuildOutput} (h : m.build prop bbox cls im = .ok out) :
    out.proposal_label.length = out.objects.length ∧
    out.proposal_label_prob.length = out.objects.length ∧
    (∀ l ∈ out.proposal_label, 0 ≤ l ∧ l < (m.num_classes : ℤ)) ∧
    (∀ p ∈ out.proposal_label_prob, m.min_prob_threshold ≤ p) ∧
    (∀ b ∈ out.objects, clipBox im b = b) ∧
    (∀ c : ℤ,
      ((zip3 out.objects out.proposal_label out.proposal_label_prob).filter
          fun t => decide (t.2.1 = c)).Pairwise
        (fun t1 t2 => iou (changeOrder t1.1) (changeOrder t2.1) < m.class_nms_threshold ∧
          iou (changeOrder t2.1) (changeOrder t1.1) < m.class_nms_threshold) ∧
      ((zip3 out.objects out.proposal_label out.proposal_label_prob).filter
          fun t => decide (t.2.1 = c)).length ≤ m.class_max_detections.toNat) ∧
    (min m.total_max_detections (out.objects.length : ℤ)).toNat = out.objects.length := by
  rcases build_ok_inv h with
    ⟨p1, l1, pr1, b1, deltas, raw, o2, l2, pr2, results, hq1, hd, hraw, hq4, hres, hout⟩
  subst hout
  -- the validity stage is the identity
  rw [validityFilterStage_eq] at hq4
  by_cases hv1 : l1.length = (raw.map (clipBox im)).length
  case neg => rw [if_neg hv1] at hq4; exact absurd hq4 (by simp)
  rw [if_pos hv1] at hq4
  by_cases hv2 : pr1.length = (raw.map (clipBox im)).length
  case neg => rw [if_neg hv2] at hq4; exact absurd hq4 (by simp)
  rw [if_pos hv2] at hq4
  have hq4' := Except.ok.inj hq4
  injection hq4' with ho2 hq4''
  injection hq4'' with hl2 hpr2
  subst ho2; subst hl2; subst hpr2
  -- the label stage characterization (for the probability bound)
  rw [labelFilterStage_eq] at hq1
  by_cases hL1 : (prop.map (List.drop 1)).length = bbox.length
  case neg => rw [if_neg hL1] at hq1; exact absurd hq1 (by simp)
  rw [if_pos hL1] at hq1
  by_cases hL2 : (prop.map (List.drop 1)).length = cls.length
  case neg => rw [if_neg hL2] at hq1; exact absurd hq1 (by simp)
  rw [if_pos hL2] at hq1
  have hq1' := Except.ok.inj hq1
  injection hq1' with hp1 hq1''
  injection hq1'' with hl1 hq1'''
  injection hq1''' with hpr1 hb1
  -- abbreviations for the concatenated per-class outputs
  have hF1 : ∀ r ∈ results, r.2.1.length = r.1.length ∧ r.2.2.length = r.1.length := by
    intro r hr
    rcases forall₂_mem_right (classNMSStage_ok_iff.mp hres) r hr with ⟨c, _, hcp⟩
    rcases classPass_ok_inv hcp with ⟨_, _, hrform⟩
    subst hrform
    constructor <;> simp
  have hlen_lab : ((results.map (·.2.2)).flatten).length =
      ((results.map (·.2.1)).flatten).length :=
    flatten_length_eq_of (forall₂_map_map _ _ fun r hr =>
      ((hF1 r hr).2.trans (hF1 r hr).1.symm))
  have hlen_obj : ((((results.map (·.1)).flatten).map changeOrder)).length =
      ((results.map (·.2.1)).flatten).length := by
    rw [List.length_map]
    exact flatten_length_eq_of (forall₂_map_map _ _ fun r hr => (hF1 r hr).1.symm)
  -- membership in the ranked top-k list
  have hrank_mem : ∀ pr ∈ (sortBy rankLt ((results.map (·.2.1)).flatten).enum).take
      (min m.total_max_detections (((results.map (·.2.1)).flatten).length : ℤ)).toNat,
      pr.1 < ((results.map (·.2.1)).flatten).length ∧
        ((results.map (·.2.1)).flatten).getD pr.1 0 = pr.2 := by
    intro pr hpr
    have h1 : pr ∈ sortBy rankLt ((results.map (·.2.1)).flatten).enum :=
      (List.take_subset _ _) hpr
    have h2 : pr ∈ ((results.map (·.2.1)).flatten).enum :=
      (sortBy_perm _ _).subset h1
    obtain ⟨i, x⟩ := pr
    exact enum_mem_spec h2 0
  refine ⟨by simp [assembleOutput, topKStage], by simp [assembleOutput, topKStage],
    ?_, ?_, ?_, ?_, ?_⟩
  · -- labels are in range
    intro l hl
    have hl' : l ∈ ((sortBy rankLt ((results.map (·.2.1)).flatten).enum).take
        (min m.total_max_detections
          (((results.map (·.2.1)).flatten).length : ℤ)).toNat).map
        (fun p => ((results.map (·.2.2)).flatten).getD p.1 0) := hl
    rcases List.mem_map.mp hl' with ⟨pr, hpr, rfl⟩
    rcases hrank_mem pr hpr with ⟨hlt, _⟩
    have hlt2 : pr.1 < ((results.map (·.2.2)).flatten).length := by rw [hlen_lab]; exact hlt
    have hmem : ((results.map (·.2.2)).flatten).getD pr.1 0 ∈
        (results.map (·.2.2)).flatten := by
      rw [List.getD_eq_getElem _ _ hlt2]
      exact List.getElem_mem hlt2
    rcases List.mem_flatten.mp hmem with ⟨blk, hblk, hlblk⟩
    rcases List.mem_map.mp hblk with ⟨r, hr, rfl⟩
    rcases forall₂_mem_right (classNMSStage_ok_iff.mp hres) r hr with ⟨c, hcrange, hcp⟩
    rcases classPass_ok_inv hcp with ⟨_, _, hrform⟩
    subst hrform
    have := List.eq_of_mem_replicate hlblk
    rw [this]
    exact ⟨Int.natCast_nonneg c, by exact_mod_cast List.mem_range.mp hcrange⟩
  · -- probabilities meet the threshold
    intro p hp
    have hp' : p ∈ ((sortBy rankLt ((results.map (·.2.1)).flatten).enum).take
        (min m.total_max_detections
          (((results.map (·.2.1)).flatten).length : ℤ)).toNat).map (·.2) := hp
    rcases List.mem_map.mp hp' with ⟨pr, hpr, rfl⟩
    rcases hrank_mem pr hpr with ⟨hlt, hval⟩
    have hmem : pr.2 ∈ (results.map (·.2.1)).flatten := by
      rw [← hval, List.getD_eq_getElem _ _ hlt]
      exact List.getElem_mem hlt
    rcases List.mem_flatten.mp hmem with ⟨blk, hblk, hpblk⟩
    rcases List.mem_map.mp hblk with ⟨r, hr, rfl⟩
    rcases forall₂_mem_right (classNMSStage_ok_iff.mp hres) r hr with ⟨c, _, hcp⟩
    rcases classPass_ok_inv hcp with ⟨hc1, hc2, hrform⟩
    subst hrform
    dsimp only at hpblk
    rcases List.mem_map.mp hpblk with ⟨i, hi_idx, hieq⟩
    rw [← hieq]
    have hilt : i < (maskList pr1 (l1.map fun l => decide (l = (c : ℤ)))).length :=
      nms_mem_lt hi_idx
    have hmem2 : (maskList pr1 (l1.map fun l => decide (l = (c : ℤ)))).getD i 0 ∈
        maskList pr1 (l1.map fun l => decide (l = (c : ℤ))) := by
      rw [List.getD_eq_getElem _ _ hilt]
      exact List.getElem_mem hilt
    have hsrc : ∀ q ∈ pr1, m.min_prob_threshold ≤ q := by
      intro q hq
      rw [← hpr1, maskList_map_pred] at hq
      rcases List.mem_map.mp hq with ⟨row, hrow, hroweq⟩
      rw [← hroweq]
      have hkeep := (List.mem_filter.mp hrow).2
      rw [keepRow, Bool.and_eq_true, decide_eq_true_eq, decide_eq_true_eq] at hkeep
      exact hkeep.2
    exact hsrc _ (maskList_mem hmem2)
  · -- boxes are clip-fixed
    intro b hb
    have hb' : b ∈ ((sortBy rankLt ((results.map (·.2.1)).flatten).enum).take
        (min m.total_max_detections
          (((results.map (·.2.1)).flatten).length : ℤ)).toNat).map
        (fun p => ((((results.map (·.1)).flatten).map changeOrder)).getD p.1 dfltBox) := hb
    rcases List.mem_map.mp hb' with ⟨pr, hpr, rfl⟩
    rcases hrank_mem pr hpr with ⟨hlt, _⟩
    have hlt2 : pr.1 < (((results.map (·.1)).flatten).map changeOrder).length := by
      rw [hlen_obj]; exact hlt
    have hmem : ((((results.map (·.1)).flatten).map changeOrder)).getD pr.1 dfltBox ∈
        (((results.map (·.1)).flatten).map changeOrder) := by
      rw [List.getD_eq_getElem _ _ hlt2]
      exact List.getElem_mem hlt2
    rcases List.mem_map.mp hmem with ⟨bb, hbb, hbbeq⟩
    rcases List.mem_flatten.mp hbb with ⟨blk, hblk, hbblk⟩
    rcases List.mem_map.mp hblk with ⟨r, hr, rfl⟩
    rcases forall₂_mem_right (classNMSStage_ok_iff.mp hres) r hr with ⟨c, _, hcp⟩
    rcases classPass_ok_inv hcp with ⟨hc1, hc2, hrform⟩
    subst hrform
    dsimp only at hbblk
    rcases List.mem_map.mp hbblk with ⟨i, hi_idx, rfl⟩
    have hcbcp : (maskList ((raw.map (clipBox im)).map changeOrder)
        (l1.map fun l => decide (l = (c : ℤ)))).length =
        (maskList pr1 (l1.map fun l => decide (l = (c : ℤ)))).length :=
      maskList_length_pair (by simpa using hc1) (by simpa using hc2)
    have hilt : i < (maskList ((raw.map (clipBox im)).map changeOrder)
        (l1.map fun l => decide (l = (c : ℤ)))).length := by
      rw [hcbcp]
      exact nms_mem_lt hi_idx
    have hmem2 : (maskList ((raw.map (clipBox im)).map changeOrder)
        (l1.map fun l => decide (l = (c : ℤ)))).getD i dfltBox ∈
        maskList ((raw.map (clipBox im)).map changeOrder)
          (l1.map fun l => decide (l = (c : ℤ))) := by
      rw [List.getD_eq_getElem _ _ hilt]
      exact List.getElem_mem hilt
    have hmem3 := maskList_mem hmem2
    rcases List.mem_map.mp hmem3 with ⟨b0, hb0, hb0eq⟩
    rcases List.mem_map.mp hb0 with ⟨r0, _, hr0eq⟩
    rw [← hbbeq, ← hb0eq, changeOrder_changeOrder, ← hr0eq]
    exact clipBox_idem im r0
  · -- per-class pairwise IoU and count bound
    intro c
    have hblocks := results_blocks_props hres
    have hnodup : (((List.range m.num_classes)).map fun (c : ℕ) => (c : ℤ)).Nodup :=
      (List.nodup_range m.num_classes).map fun a b hab => by exact_mod_cast hab
    have hprops := filter_blocks_props hblocks hnodup c
    have hZ : zip3 (((results.map (·.1)).flatten).map changeOrder)
        ((results.map (·.2.2)).flatten) ((results.map (·.2.1)).flatten) =
        (results.map fun r => zip3 (r.1.map changeOrder) r.2.2 r.2.1).flatten := by
      have hlens : ∀ t ∈ results.map fun r => (r.1.map changeOrder, r.2.2, r.2.1),
          t.2.1.length = t.1.length ∧ t.2.2.length = t.1.length := by
        intro t ht
        rcases List.mem_map.mp ht with ⟨r, hr, rfl⟩
        dsimp only
        rw [List.length_map]
        exact ⟨(hF1 r hr).2, (hF1 r hr).1⟩
      have htri := zip3_flatten_tri
        (results.map fun r => (r.1.map changeOrder, r.2.2, r.2.1)) hlens
      simp only [List.map_map, Function.comp] at htri
      rw [List.map_flatten, List.map_map]
      exact htri
    have hZlen : (zip3 (((results.map (·.1)).flatten).map changeOrder)
        ((results.map (·.2.2)).flatten) ((results.map (·.2.1)).flatten)).length =
        ((results.map (·.2.1)).flatten).length := by
      rw [zip3_length _ _ _ (hlen_lab.trans hlen_obj.symm) hlen_obj.symm]
      exact hlen_obj
    have hzip3out : zip3 (assembleOutput m.total_max_detections raw results).objects
        (assembleOutput m.total_max_detections raw results).proposal_label
        (assembleOutput m.total_max_detections raw results).proposal_label_prob =
        ((sortBy rankLt ((results.map (·.2.1)).flatten).enum).take
          (min m.total_max_detections
            (((results.map (·.2.1)).flatten).length : ℤ)).toNat).map
          (fun pr => (zip3 (((results.map (·.1)).flatten).map changeOrder)
            ((results.map (·.2.2)).flatten)
            ((results.map (·.2.1)).flatten)).getD pr.1 (dfltBox, 0, 0)) := by
      show zip3 (((sortBy rankLt ((results.map (·.2.1)).flatten).enum).take
          (min m.total_max_detections
            (((results.map (·.2.1)).flatten).length : ℤ)).toNat).map
          (fun pr => ((((results.map (·.1)).flatten).map changeOrder)).getD pr.1 dfltBox))
        (((sortBy rankLt ((results.map (·.2.1)).flatten).enum).take
          (min m.total_max_detections
            (((results.map (·.2.1)).flatten).length : ℤ)).toNat).map
          (fun pr => ((results.map (·.2.2)).flatten).getD pr.1 0))
        (((sortBy rankLt ((results.map (·.2.1)).flatten).enum).take
          (min m.total_max_detections
            (((results.map (·.2.1)).flatten).length : ℤ)).toNat).map (·.2)) = _
      rw [zip3_map_of_same]
      refine List.map_congr_left ?_
      intro pr hpr
      rcases hrank_mem pr hpr with ⟨hlt, hval⟩
      rw [zip3_getD _ _ _ (hlen_lab.trans hlen_obj.symm) hlen_obj.symm pr.1
        (by rw [hlen_obj]; exact hlt) dfltBox 0 0, hval]
    have hsubr : ((sortBy rankLt ((results.map (·.2.1)).flatten).enum).take
        (min m.total_max_detections
          (((results.map (·.2.1)).flatten).length : ℤ)).toNat).Subperm
        ((results.map (·.2.1)).flatten).enum :=
      ((List.take_sublist _ _).subperm).trans (sortBy_perm rankLt _).subperm
    have hsub : (zip3 (assembleOutput m.total_max_detections raw results).objects
        (assembleOutput m.total_max_detections raw results).proposal_label
        (assembleOutput m.total_max_detections raw results).proposal_label_prob).Subperm
        (zip3 (((results.map (·.1)).flatten).map changeOrder)
          ((results.map (·.2.2)).flatten) ((results.map (·.2.1)).flatten)) := by
      rw [hzip3out]
      have hmap := subperm_map (fun pr : ℕ × ℚ =>
        (zip3 (((results.map (·.1)).flatten).map changeOrder)
          ((results.map (·.2.2)).flatten) ((results.map (·.2.1)).flatten)).getD pr.1
          (dfltBox, 0, 0)) hsubr
      rwa [map_enum_getD _ _ _ hZlen] at hmap
    have hZfilter := hprops
    rw [← flatten_filter, ← hZ] at hZfilter
    constructor
    · exact pairwise_of_subperm (fun t1 t2 hab => ⟨hab.2, hab.1⟩)
        (subperm_filter _ hsub) hZfilter.1
    · exact le_trans (subperm_filter _ hsub).length_le hZfilter.2
  · -- the total-max cap is saturated by the output length
    have hlen1 : (assembleOutput m.total_max_detections raw results).objects.length =
        min ((min m.total_max_detections
          (((results.map (·.2.1)).flatten).length : ℤ)).toNat)
          ((results.map (·.2.1)).flatten).length := by
      show (((sortBy rankLt ((results.map (·.2.1)).flatten).enum).take
          (min m.total_max_detections
            (((results.map (·.2.1)).flatten).length : ℤ)).toNat).map
          (fun pr => ((((results.map (·.1)).flatten).map changeOrder)).getD pr.1
            dfltBox)).length = _
      rw [List.length_map, List.length_take, (sortBy_perm rankLt _).length_eq,
        List.enum_length]
    rw [hlen1]
    omega

theorem classNMSStage_ok_of {maxDet : ℤ} {thr : ℚ} {objects_tf : List Box} {labels : List ℤ}
    {probs : List ℚ} (cs : List ℕ) (f : ℕ → List Box × List ℚ × List ℤ)
    (h : ∀ c ∈ cs, classPass maxDet thr objects_tf labels probs c = .ok (f c)) :
    classNMSStage maxDet thr objects_tf labels probs cs = .ok (cs.map f) := by
  induction cs with
  | nil => rfl
  | cons c cs ih =>
    unfold classNMSStage
    rw [h c (List.mem_cons_self _ _), except_ok_bind,
      ih fun c' hc' => h c' (List.mem_cons_of_mem _ hc'), except_ok_bind]
    rfl

theorem map_const_replicate {α β : Type} (c : β) (l : List α) :
    l.map (fun _ => c) = List.replicate l.length c := by
  induction l with
  | nil => rfl
  | cons x xs ih => simp [List.replicate_succ, ih]

theorem map_enum_triple (q : List ℚ) (bx : List Box) (c : ℤ) (hlen : bx.length = q.length) :
    q.enum.map (fun pr => (changeOrder (bx.getD pr.1 dfltBox), c, q.getD pr.1 0)) =
      zip3 (bx.map changeOrder) (List.replicate q.length c) q := by
  apply List.ext_getElem
  · rw [List.length_map, List.enum_length,
      zip3_length _ _ _ (by simp [hlen]) (by simp [hlen]), List.length_map, hlen]
  · intro i h1 h2
    have hiq : i < q.length := by simpa using h1
    have hib : i < bx.length := by rw [hlen]; exact hiq
    rw [List.getElem_map, List.getElem_enum]
    show (changeOrder (bx.getD i dfltBox), c, q.getD i 0) = _
    have hz := zip3_getD (bx.map changeOrder) (List.replicate q.length c) q
      (by simp [hlen]) (by simp [hlen]) i (by simp [hib]) dfltBox c 0
    rw [List.getD_eq_getElem _ _ h2] at hz
    rw [hz, List.getD_eq_getElem _ _ hib, List.getD_eq_getElem _ _ hiq,
      List.getD_eq_getElem _ _ (by simp [hib] : i < (bx.map changeOrder).length),
      List.getD_eq_getElem _ _ (by simpa using hiq : i < (List.replicate q.length c).length)]
    rw [List.getElem_map, List.getElem_replicate]

theorem forall₂_map_of {α β γ : Type} {R : β → γ → Prop} (f : α → β) (g : α → γ)
    {cs : List α} (h : ∀ x ∈ cs, R (f x) (g x)) :
    List.Forall₂ R (cs.map f) (cs.map g) := by
  induction cs with
  | nil => exact .nil
  | cons x xs ih =>
    exact .cons (h x (List.mem_cons_self _ _)) (ih fun y hy => h y (List.mem_cons_of_mem _ hy))

theorem rerun_labelFilter (m : RCNNProposal) (out : BuildOutput)
    (hlen1 : out.proposal_label.length = out.objects.length)
    (hlen2 : out.proposal_label_prob.length = out.objects.length)
    (hlab : ∀ l ∈ out.proposal_label, 0 ≤ l ∧ l < (m.num_classes : ℤ))
    (hthr : ∀ p ∈ out.proposal_label_prob, m.min_prob_threshold ≤ p)
    (hpos : ∀ p ∈ out.proposal_label_prob, 0 < p) :
    labelFilterStage m.min_prob_threshold ((reProposals out).map (List.drop 1))
      (reDeltas m.num_classes out) (reClsProb m.num_classes out) =
      .ok (out.objects.map fun b => [b.x_min, b.y_min, b.x_max, b.y_max],
        out.proposal_label, out.proposal_label_prob, reDeltas m.num_classes out) := by
  have hzip_mem : ∀ lp ∈ out.proposal_label.zip out.proposal_label_prob,
      argmaxQ ((List.range (m.num_classes + 1)).map fun (j : ℕ) =>
        if (j : ℤ) = lp.1 + 1 then lp.2 else 0) = lp.1.toNat + 1 ∧
      rowMax ((List.range (m.num_classes + 1)).map fun (j : ℕ) =>
        if (j : ℤ) = lp.1 + 1 then lp.2 else 0) = lp.2 ∧ 0 ≤ lp.1 := by
    intro lp hlp
    have hl := hlab lp.1 (List.of_mem_zip hlp).1
    have hp := hpos lp.2 (List.of_mem_zip hlp).2
    rcases encRow_eval m.num_classes lp.1 lp.2 hl.1 hl.2 hp with ⟨ha, hr⟩
    exact ⟨ha, hr, hl.1⟩
  have hzlen : (out.proposal_label.zip out.proposal_label_prob).length =
      out.objects.length := by
    rw [List.length_zip, hlen1, hlen2, min_self]
  have hlabels : (reClsProb m.num_classes out).map (fun r => (argmaxQ r : ℤ) - 1) =
      out.proposal_label := by
    unfold reClsProb
    rw [List.map_map]
    have : ∀ lp ∈ out.proposal_label.zip out.proposal_label_prob,
        ((fun r => (argmaxQ r : ℤ) - 1) ∘ fun lp =>
          (List.range (m.num_classes + 1)).map fun (j : ℕ) =>
            if (j : ℤ) = lp.1 + 1 then lp.2 else 0) lp = lp.1 := by
      intro lp hlp
      rcases hzip_mem lp hlp with ⟨ha, _, hl0⟩
      show (argmaxQ _ : ℤ) - 1 = lp.1
      rw [ha]
      omega
    rw [List.map_congr_left this]
    exact List.map_fst_zip _ _ (by rw [hlen1, hlen2])
  have hprobs : (reClsProb m.num_classes out).map rowMax = out.proposal_label_prob := by
    unfold reClsProb
    rw [List.map_map]
    have : ∀ lp ∈ out.proposal_label.zip out.proposal_label_prob,
        (rowMax ∘ fun lp => (List.range (m.num_classes + 1)).map fun (j : ℕ) =>
          if (j : ℤ) = lp.1 + 1 then lp.2 else 0) lp = lp.2 := by
      intro lp hlp
      exact (hzip_mem lp hlp).2.1
    rw [List.map_congr_left this]
    exact List.map_snd_zip _ _ (by rw [hlen1, hlen2])
  have hmask : ∀ b ∈ (reClsProb m.num_classes out).map (keepRow m.min_prob_threshold),
      b = true := by
    intro b hb
    rcases List.mem_map.mp hb with ⟨row, hrow, rfl⟩
    unfold reClsProb at hrow
    rcases List.mem_map.mp hrow with ⟨lp, hlp, rfl⟩
    rcases hzip_mem lp hlp with ⟨ha, hr, hl0⟩
    have hthr' := hthr lp.2 (List.of_mem_zip hlp).2
    rw [keepRow, ha, hr]
    rw [Bool.and_eq_true, decide_eq_true_eq, decide_eq_true_eq]
    exact ⟨by omega, hthr'⟩
  have hcls_len : (reClsProb m.num_classes out).length = out.objects.length := by
    unfold reClsProb
    rw [List.length_map]
    exact hzlen
  have hstrip : (reProposals out).map (List.drop 1) =
      out.objects.map fun b => [b.x_min, b.y_min, b.x_max, b.y_max] := by
    unfold reProposals
    rw [List.map_map]
    rfl
  rw [labelFilterStage_eq, if_pos (by unfold reProposals reDeltas; simp),
    if_pos (by simp [reProposals, hcls_len])]
  rw [maskList_true _ _ (by simp [reProposals, hcls_len]) hmask,
    maskList_true _ _ (by simp [hcls_len]) hmask,
    maskList_true _ _ (by simp [hcls_len]) hmask,
    maskList_true _ _ (by unfold reDeltas; simp [hcls_len]) hmask,
    hstrip, hlabels, hprobs]

theorem rerun_gather (n : ℕ) (out : BuildOutput)
    (hlab : ∀ l ∈ out.proposal_label, 0 ≤ l ∧ l < (n : ℤ))
    (hlen1 : out.proposal_label.length = out.objects.length) :
    gatherDeltasStage n out.proposal_label (reDeltas n out) =
      .ok (List.replicate out.objects.length [0, 0, 0, 0]) := by
  rw [gatherDeltasStage_eq]
  have hflat : (reDeltas n out).flatten = List.replicate (4 * (out.objects.length * n)) 0 := by
    unfold reDeltas
    rw [flatten_const_replicate]
    congr 1
    ring
  rw [hflat, chunk4_replicate]
  have hhot_len : ((out.proposal_label.map (oneHotRow n)).flatten).length =
      out.objects.length * n := by
    rw [flatten_length_const _ _ n fun l _ => oneHotRow_length n l, hlen1]
  have hcnt : ((out.proposal_label.map (oneHotRow n)).flatten).countP id =
      out.objects.length := by
    rw [countP_flatten_ones _ _ fun l hl => oneHotRow_countP n l (hlab l hl).1 (hlab l hl).2,
      hlen1]
  show (if (List.replicate (out.objects.length * n) ([0, 0, 0, 0] : List ℚ)).length =
      ((out.proposal_label.map (oneHotRow n)).flatten).length then _ else _) = _
  rw [if_pos (by rw [List.length_replicate, hhot_len])]
  have hrepl : List.replicate (out.objects.length * n) ([0, 0, 0, 0] : List ℚ) =
      List.replicate ((out.proposal_label.map (oneHotRow n)).flatten).length [0, 0, 0, 0] := by
    rw [hhot_len]
  rw [hrepl, maskList_replicate, hcnt]

theorem classPass_eq_value (maxDet : ℤ) (thr : ℚ) (objects_tf : List Box) (labels : List ℤ)
    (probs : List ℚ) (c : ℕ) (h1 : objects_tf.length = labels.length)
    (h2 : probs.length = labels.length) :
    classPass maxDet thr objects_tf labels probs c =
      .ok (classPassValue maxDet thr objects_tf labels probs c) := by
  rw [classPass_eq]
  dsimp only
  rw [if_pos h1, if_pos h2]
  rfl

theorem classPassValue_lengths (maxDet : ℤ) (thr : ℚ) (objects_tf : List Box)
    (labels : List ℤ) (probs : List ℚ) (c : ℕ) :
    (classPassValue maxDet thr objects_tf labels probs c).2.1.length =
      (classPassValue maxDet thr objects_tf labels probs c).1.length ∧
    (classPassValue maxDet thr objects_tf labels probs c).2.2.length =
      (classPassValue maxDet thr objects_tf labels probs c).1.length := by
  unfold classPassValue
  dsimp only
  simp

theorem rerun_block_perm (maxDet : ℤ) (thr : ℚ) (O : List Box) (L : List ℤ) (P : List ℚ)
    (c : ℕ) (hlen1 : L.length = O.length) (hlen2 : P.length = O.length)
    (hpw : ((zip3 O L P).filter fun t => decide (t.2.1 = (c : ℤ))).Pairwise
      fun t1 t2 => iou (changeOrder t1.1) (changeOrder t2.1) < thr ∧
        iou (changeOrder t2.1) (changeOrder t1.1) < thr)
    (hcard : ((zip3 O L P).filter fun t => decide (t.2.1 = (c : ℤ))).length ≤ maxDet.toNat) :
    (zip3 ((classPassValue maxDet thr (O.map changeOrder) L P c).1.map changeOrder)
      (classPassValue maxDet thr (O.map changeOrder) L P c).2.2
      (classPassValue maxDet thr (O.map changeOrder) L P c).2.1).Perm
      ((zip3 O L P).filter fun t => decide (t.2.1 = (c : ℤ))) := by
  have hm := maskList_zip3_pred (fun l => decide (l = (c : ℤ))) O L P hlen1 hlen2
  obtain ⟨F, hF⟩ : ∃ F, ((zip3 O L P).filter fun t => decide (t.2.1 = (c : ℤ))) = F :=
    ⟨_, rfl⟩
  rw [hF] at hpw hcard ⊢
  have hm1 : maskList O (L.map fun l => decide (l = (c : ℤ))) = F.map (·.1) := by
    rw [← hF]; exact hm.1
  have hm2 : maskList P (L.map fun l => decide (l = (c : ℤ))) = F.map (·.2.2) := by
    rw [← hF]; exact hm.2
  have hFc : ∀ t ∈ F, t.2.1 = (c : ℤ) := by
    intro t ht
    rw [← hF] at ht
    simpa using (List.mem_filter.mp ht).2
  unfold classPassValue
  dsimp only
  obtain ⟨cb, hcb⟩ : ∃ x, maskList (O.map changeOrder)
      (L.map fun l => decide (l = (c : ℤ))) = x := ⟨_, rfl⟩
  obtain ⟨cp, hcp⟩ : ∃ x, maskList P (L.map fun l => decide (l = (c : ℤ))) = x := ⟨_, rfl⟩
  rw [hcb, hcp]
  have hcbF : cb = (F.map (·.1)).map changeOrder := by rw [← hcb, maskList_map, hm1]
  have hcpF : cp = F.map (·.2.2) := by rw [← hcp]; exact hm2
  have hcbl : cb.length = F.length := by rw [hcbF]; simp
  have hcpl : cp.length = F.length := by rw [hcpF]; simp
  have hpw' : cb.Pairwise fun b1 b2 => iou b1 b2 < thr ∧ iou b2 b1 < thr := by
    rw [hcbF, List.map_map]
    exact List.pairwise_map.mpr hpw
  have hnms : nms cb cp maxDet thr = (sortBy rankLt cp.enum).map (·.1) := by
    by_cases h0 : F = []
    · rw [hcbF, hcpF, h0]
      rfl
    · have hFpos : 0 < F.length := List.length_pos.mpr h0
      refine nms_keep_all cb cp maxDet thr (hcbl.trans hcpl.symm) ?_ hpw'
      rw [hcpl]
      omega
  have hE : (zip3 (((nms cb cp maxDet thr).map fun i => cb.getD i dfltBox).map changeOrder)
      (List.replicate (nms cb cp maxDet thr).length (c : ℤ))
      ((nms cb cp maxDet thr).map fun i => cp.getD i 0)) =
      (sortBy rankLt cp.enum).map fun pr =>
        (changeOrder (cb.getD pr.1 dfltBox), (c : ℤ), cp.getD pr.1 0) := by
    rw [hnms]
    have e1 : ((((sortBy rankLt cp.enum).map (·.1)).map fun i =>
        cb.getD i dfltBox).map changeOrder) =
        (sortBy rankLt cp.enum).map fun pr => changeOrder (cb.getD pr.1 dfltBox) := by
      rw [List.map_map, List.map_map]
      exact List.map_congr_left fun x _ => rfl
    have e2 : ((sortBy rankLt cp.enum).map (·.1)).map (fun i => cp.getD i 0) =
        (sortBy rankLt cp.enum).map fun pr => cp.getD pr.1 0 := by
      rw [List.map_map]
      exact List.map_congr_left fun x _ => rfl
    have e3 : List.replicate (((sortBy rankLt cp.enum).map (·.1)).length) (c : ℤ) =
        (sortBy rankLt cp.enum).map fun _ => (c : ℤ) := by
      rw [List.length_map, ← map_const_replicate]
    rw [e1, e2, e3, zip3_map_of_same]
  have hE2 : (cp.enum.map fun pr =>
      (changeOrder (cb.getD pr.1 dfltBox), (c : ℤ), cp.getD pr.1 0)) = F := by
    rw [map_enum_triple cp cb (c : ℤ) (hcbl.trans hcpl.symm)]
    rw [hcbF, List.map_map]
    have e4 : F.map (changeOrder ∘ changeOrder ∘ (·.1)) = F.map (·.1) :=
      List.map_congr_left fun t _ => changeOrder_changeOrder t.1
    rw [show (F.map (·.1)).map (changeOrder ∘ changeOrder) =
        F.map (changeOrder ∘ changeOrder ∘ (·.1)) from List.map_map _ _ _, e4, hcpl, hcpF]
    exact zip3_reassemble (c : ℤ) F hFc
  rw [hE]
  refine List.Perm.trans (((sortBy_perm rankLt cp.enum).map fun pr =>
    (changeOrder (cb.getD pr.1 dfltBox), (c : ℤ), cp.getD pr.1 0))) ?_
  rw [hE2]

/-- Claim C9: idempotence on the pipeline's own output.  If a run succeeds with
output `out` (all reported probabilities positive), then re-running the full
pipeline on the clipped output boxes it produced — deltas all zero, labels and
probabilities re-supplied as one-hot class probability rows — succeeds and
returns the same set of boxes (a permutation of `out.objects`). -/
theorem c9_idempotence (m : RCNNProposal) (proposals bbox_pred cls_prob : List (List ℚ))
    (im_shape : ℚ × ℚ) (out : BuildOutput)
    (hok : m.build proposals bbox_pred cls_prob im_shape = .ok out)
    (hpos : ∀ p ∈ out.proposal_label_prob, 0 < p) :
    ∃ out', m.build (reProposals out) (reDeltas m.num_classes out)
        (reClsProb m.num_classes out) im_shape = .ok out' ∧
      List.Perm out'.objects out.objects := by
  rcases build_output_invariants hok with ⟨hlen1, hlen2, hlab, hthr, hclip, hclassE, htotal⟩
  have h1 := rerun_labelFilter m out hlen1 hlen2 hlab hthr hpos
  have h2 := rerun_gather m.num_classes out hlab hlen1
  have h3 := decode_zero out.objects
  have hclipid : out.objects.map (clipBox im_shape) = out.objects := by
    have hmapid : out.objects.map (clipBox im_shape) = out.objects.map id :=
      List.map_congr_left fun b hb => hclip b hb
    rw [hmapid, List.map_id]
  have h4 : validityFilterStage (out.objects.map (clipBox im_shape)) out.proposal_label
      out.proposal_label_prob =
      .ok (out.objects, out.proposal_label, out.proposal_label_prob) := by
    rw [hclipid, validityFilterStage_eq, if_pos hlen1, if_pos hlen2]
  have hcp_ok : ∀ c ∈ List.range m.num_classes,
      classPass m.class_max_detections m.class_nms_threshold
        (out.objects.map changeOrder) out.proposal_label out.proposal_label_prob c =
      .ok (classPassValue m.class_max_detections m.class_nms_threshold
        (out.objects.map changeOrder) out.proposal_label out.proposal_label_prob c) :=
    fun c _ => classPass_eq_value _ _ _ _ _ c
      (by rw [List.length_map]; exact hlen1.symm) (hlen2.trans hlen1.symm)
  have h5 := classNMSStage_ok_of (List.range m.num_classes)
    (classPassValue m.class_max_detections m.class_nms_threshold
      (out.objects.map changeOrder) out.proposal_label out.proposal_label_prob) hcp_ok
  have hbuild := build_eq_of_stages h1 h2 h3 h4 h5
  refine ⟨_, hbuild, ?_⟩
  obtain ⟨results, hres⟩ : ∃ x, (List.range m.num_classes).map
      (classPassValue m.class_max_detections m.class_nms_threshold
        (out.objects.map changeOrder) out.proposal_label out.proposal_label_prob) = x :=
    ⟨_, rfl⟩
  rw [hres]
  have hF1 : ∀ r ∈ results, r.2.1.length = r.1.length ∧ r.2.2.length = r.1.length := by
    intro r hr
    rw [← hres] at hr
    rcases List.mem_map.mp hr with ⟨c, _, rfl⟩
    exact classPassValue_lengths _ _ _ _ _ c
  have hlen_lab : ((results.map (·.2.2)).flatten).length =
      ((results.map (·.2.1)).flatten).length :=
    flatten_length_eq_of (forall₂_map_map _ _ fun r hr =>
      ((hF1 r hr).2.trans (hF1 r hr).1.symm))
  have hlen_obj : ((((results.map (·.1)).flatten).map changeOrder)).length =
      ((results.map (·.2.1)).flatten).length := by
    rw [List.length_map]
    exact flatten_length_eq_of (forall₂_map_map _ _ fun r hr => (hF1 r hr).1.symm)
  have hZ : zip3 (((results.map (·.1)).flatten).map changeOrder)
      ((results.map (·.2.2)).flatten) ((results.map (·.2.1)).flatten) =
      (results.map fun r => zip3 (r.1.map changeOrder) r.2.2 r.2.1).flatten := by
    have hlens : ∀ t ∈ results.map fun r => (r.1.map changeOrder, r.2.2, r.2.1),
        t.2.1.length = t.1.length ∧ t.2.2.length = t.1.length := by
      intro t ht
      rcases List.mem_map.mp ht with ⟨r, hr, rfl⟩
      dsimp only
      rw [List.length_map]
      exact ⟨(hF1 r hr).2, (hF1 r hr).1⟩
    have htri := zip3_flatten_tri
      (results.map fun r => (r.1.map changeOrder, r.2.2, r.2.1)) hlens
    simp only [List.map_map, Function.comp] at htri
    rw [List.map_flatten, List.map_map]
    exact htri
  have hblockperm : ∀ c ∈ List.range m.num_classes,
      (zip3 ((classPassValue m.class_max_detections m.class_nms_threshold
          (out.objects.map changeOrder) out.proposal_label out.proposal_label_prob c).1.map
          changeOrder)
        (classPassValue m.class_max_detections m.class_nms_threshold
          (out.objects.map changeOrder) out.proposal_label out.proposal_label_prob c).2.2
        (classPassValue m.class_max_detections m.class_nms_threshold
          (out.objects.map changeOrder) out.proposal_label
          out.proposal_label_prob c).2.1).Perm
        ((zip3 out.objects out.proposal_label out.proposal_label_prob).filter
          fun t => decide (t.2.1 = (c : ℤ))) := by
    intro c _
    exact rerun_block_perm m.class_max_detections m.class_nms_threshold
      out.objects out.proposal_label out.proposal_label_prob c hlen1 hlen2
      (hclassE (c : ℤ)).1 (hclassE (c : ℤ)).2
  have hfor : List.Forall₂ List.Perm
      (results.map fun r => zip3 (r.1.map changeOrder) r.2.2 r.2.1)
      ((List.range m.num_classes).map fun (c : ℕ) =>
        (zip3 out.objects out.proposal_label out.proposal_label_prob).filter
          fun t => decide (t.2.1 = (c : ℤ))) := by
    rw [← hres, List.map_map]
    exact forall₂_map_of _ _ hblockperm
  have hflatperm : ((results.map fun r =>
      zip3 (r.1.map changeOrder) r.2.2 r.2.1).flatten).Perm
      (zip3 out.objects out.proposal_label out.proposal_label_prob) := by
    refine List.Perm.trans (perm_flatten_of_forall₂ hfor) ?_
    exact perm_flatten_filter_range m.num_classes (fun t => t.2.1)
      (zip3 out.objects out.proposal_label out.proposal_label_prob)
      (fun t ht => by
        rcases hlab t.2.1 (mem_zip3_parts ht).2.1 with ⟨hl0, hln⟩
        refine ⟨t.2.1.toNat, by omega, ?_⟩
        show t.2.1 = ((t.2.1.toNat : ℕ) : ℤ)
        omega)
  have hzip_perm : (zip3 (((results.map (·.1)).flatten).map changeOrder)
      ((results.map (·.2.2)).flatten) ((results.map (·.2.1)).flatten)).Perm
      (zip3 out.objects out.proposal_label out.proposal_label_prob) := by
    rw [hZ]
    exact hflatperm
  have hzl : (zip3 (((results.map (·.1)).flatten).map changeOrder)
      ((results.map (·.2.2)).flatten) ((results.map (·.2.1)).flatten)).length =
      (zip3 out.objects out.proposal_label out.proposal_label_prob).length :=
    hzip_perm.length_eq
  have hprobflat_len : ((results.map (·.2.1)).flatten).length = out.objects.length := by
    rw [zip3_length _ _ _ (hlen_lab.trans hlen_obj.symm) hlen_obj.symm,
      zip3_length _ _ _ hlen1 hlen2] at hzl
    rw [← hlen_obj]
    exact hzl
  have hks : (min m.total_max_detections
      (((results.map (·.2.1)).flatten).length : ℤ)).toNat =
      ((results.map (·.2.1)).flatten).length := by
    rw [hprobflat_len]
    exact htotal
  have hobj_eq : (assembleOutput m.total_max_detections out.objects results).objects =
      ((sortBy rankLt ((results.map (·.2.1)).flatten).enum).take
        (min m.total_max_detections
          (((results.map (·.2.1)).flatten).length : ℤ)).toNat).map
        fun pr => ((((results.map (·.1)).flatten).map changeOrder)).getD pr.1 dfltBox := rfl
  have htake : (sortBy rankLt ((results.map (·.2.1)).flatten).enum).take
      (min m.total_max_detections
        (((results.map (·.2.1)).flatten).length : ℤ)).toNat =
      sortBy rankLt ((results.map (·.2.1)).flatten).enum := by
    apply List.take_of_length_le
    rw [(sortBy_perm rankLt _).length_eq, List.enum_length, hks]
  have hperm1 : ((assembleOutput m.total_max_detections out.objects results).objects).Perm
      ((((results.map (·.1)).flatten).map changeOrder)) := by
    rw [hobj_eq, htake]
    have hp := (sortBy_perm rankLt ((results.map (·.2.1)).flatten).enum).map
      fun pr : ℕ × ℚ => ((((results.map (·.1)).flatten).map changeOrder)).getD pr.1 dfltBox
    rwa [map_enum_getD _ _ _ hlen_obj] at hp
  have hperm2 : ((((results.map (·.1)).flatten).map changeOrder)).Perm out.objects := by
    have hp := hzip_perm.map (·.1)
    rwa [map_fst_zip3 _ _ _ (hlen_lab.trans hlen_obj.symm) hlen_obj.symm,
      map_fst_zip3 _ _ _ hlen1 hlen2] at hp
  exact hperm1.trans hperm2

section C9Witness

attribute [local semireducible] Rat.add Rat.mul Rat.inv Rat.sub Rat.ofScientific

theorem c9_idempotence_witness :
    ∃ out', scenarioModule.build (reProposals scenarioOut)
        (reDeltas scenarioModule.num_classes scenarioOut)
        (reClsProb scenarioModule.num_classes scenarioOut) (100, 100) = .ok out' ∧
      List.Perm out'.objects scenarioOut.objects :=
  c9_idempotence scenarioModule scenarioProposals scenarioDeltas scenarioClsProb (100, 100)
    scenarioOut (by decide) (by decide)

end C9Witness

end RcnnProposal
